import Mathlib

/-!
Cost calculator (expense tracker): transaction store and totals

A shallow embedding of `src/js/index.js`: the global list `transactions`, the item kept
in `localStorage`, the functions `loadTransactions`, `saveTransactions`,
`addTransaction`, `deleteTransaction`, `clearAll` and `computeTotals`, and the claims of
the specification about them.

Modelling conventions.

* JavaScript numbers are `JSNum`: `NaN`, the two infinities, and finite values. A
  finite value is carried as the rational it denotes, and every arithmetic operation
  rounds its exact result to the nearest IEEE 754 double (`toDouble`: ties to even,
  subnormal range, overflow to an infinity). The two zeros are one value: `===`, `||`,
  `String(...)` and `JSON.stringify` do not tell them apart, and the program divides
  by the constant `100` only.
* JavaScript values are `JSVal`: primitives (`JSPrim`), arrays and plain objects, that
  is the values `JSON.parse` builds, plus `undefined`. The arguments of
  `addTransaction` are a `JSArg`: such a value or a symbol. Object identity is not
  modelled, so the argument of `deleteTransaction` ranges over primitives, against
  which `===` is decided by value.
* A call that throws a `TypeError` returns `none`; the state is then what it was.
* The item kept by `localStorage` under `LS_KEY` is a `Stored`: it is represented by
  what `getItem` followed by `JSON.parse` makes of it, which is the only way the program
  reads it. `saveTransactions` therefore stores what `JSON.parse` would make of
  `JSON.stringify(transactions)`.
* The clock (`Date.now()`, `new Date().toISOString()`), `Math.random()`, the answer of
  `confirm(...)` and the printing of finite numbers by `String(...)` are explicit
  arguments.
* `render()` only reads the state and writes the DOM; it is left out.
-/

namespace CostCalculator

/-! ## Numbers -/

/-- JavaScript numbers; a finite double is carried as the rational it denotes. -/
inductive JSNum where
  | nan
  | posInf
  | negInf
  | fin (q : ℚ)
  deriving DecidableEq

/-- The binary exponent at which a real value is rounded to a double: the exponent of
its binade, and `-1022` throughout the subnormal range. -/
def binade (q : ℚ) : ℤ := max (Int.log 2 |q|) (-1022)

/-- The spacing of the doubles around a real value. -/
def ulp (q : ℚ) : ℚ := (2 : ℚ) ^ (binade q - 52)

/-- The nearest integer, a tie going to the even one. -/
def roundTiesEven (x : ℚ) : ℤ :=
  if x - ⌊x⌋ < 1 / 2 then ⌊x⌋
  else if 1 / 2 < x - ⌊x⌋ then ⌊x⌋ + 1
  else if ⌊x⌋ % 2 = 0 then ⌊x⌋ else ⌊x⌋ + 1

/-- The double nearest to a real value (ties to even), an infinity on overflow: the
rounding every arithmetic operation and every numeric literal goes through. -/
def toDouble (q : ℚ) : JSNum :=
  let r : ℚ := (roundTiesEven (q / ulp q) : ℚ) * ulp q
  if (2 : ℚ) ^ (1024 : ℕ) ≤ |r| then (if 0 < q then .posInf else .negInf) else .fin r

namespace JSNum

/-- Unary minus. -/
def neg : JSNum → JSNum
  | nan => nan
  | posInf => negInf
  | negInf => posInf
  | fin q => fin (-q)

/-- The `+` operator on numbers. -/
def add : JSNum → JSNum → JSNum
  | nan, _ => nan
  | _, nan => nan
  | posInf, negInf => nan
  | negInf, posInf => nan
  | posInf, _ => posInf
  | _, posInf => posInf
  | negInf, _ => negInf
  | _, negInf => negInf
  | fin a, fin b => toDouble (a + b)

/-- The `-` operator on numbers. -/
def sub (a b : JSNum) : JSNum := add a (neg b)

/-- An infinity with the sign of a non-zero rational. -/
def infOfSign (q : ℚ) : JSNum := if 0 < q then posInf else negInf

/-- The `*` operator on numbers. -/
def mul : JSNum → JSNum → JSNum
  | nan, _ => nan
  | _, nan => nan
  | fin a, fin b => toDouble (a * b)
  | fin a, posInf => if a = 0 then nan else infOfSign a
  | fin a, negInf => if a = 0 then nan else infOfSign (-a)
  | posInf, fin b => if b = 0 then nan else infOfSign b
  | negInf, fin b => if b = 0 then nan else infOfSign (-b)
  | posInf, posInf => posInf
  | negInf, negInf => posInf
  | posInf, negInf => negInf
  | negInf, posInf => negInf

/-- The `/` operator on numbers (a zero divisor is `+0`). -/
def div : JSNum → JSNum → JSNum
  | nan, _ => nan
  | _, nan => nan
  | fin a, fin b => if b = 0 then (if a = 0 then nan else infOfSign a) else toDouble (a / b)
  | fin _, posInf => fin 0
  | fin _, negInf => fin 0
  | posInf, fin b => if b < 0 then negInf else posInf
  | negInf, fin b => if b < 0 then posInf else negInf
  | posInf, posInf => nan
  | negInf, negInf => nan
  | posInf, negInf => nan
  | negInf, posInf => nan

/-- The function `Math.round`: the nearest integer, ties toward `+∞`. -/
def round : JSNum → JSNum
  | fin q => fin (⌊q + 1 / 2⌋ : ℤ)
  | x => x

/-- The function `Math.floor`. -/
def floor : JSNum → JSNum
  | fin q => fin (⌊q⌋ : ℤ)
  | x => x

/-- Truthiness of a number: `NaN` and `0` are falsy. -/
def isFalsy : JSNum → Bool
  | nan => true
  | fin q => decide (q = 0)
  | _ => false

/-- The expression `n || 0` for a number `n`. -/
def orZero (n : JSNum) : JSNum := if n.isFalsy then fin 0 else n

/-- A finite number (neither `NaN` nor an infinity). -/
def isFinite : JSNum → Bool
  | fin _ => true
  | _ => false

end JSNum

/-! ## Values -/

/-- JavaScript primitive values. -/
inductive JSPrim where
  | undefined
  | null
  | bool (b : Bool)
  | num (n : JSNum)
  | str (s : String)
  deriving DecidableEq

/-- JavaScript values: primitives, arrays and plain objects (own properties in order). -/
inductive JSVal where
  | prim (p : JSPrim)
  | arr (items : List JSVal)
  | obj (fields : List (String × JSVal))

namespace JSPrim

/-- Truthiness of a primitive. -/
def isFalsy : JSPrim → Bool
  | undefined => true
  | null => true
  | bool b => !b
  | num n => n.isFalsy
  | str s => decide (s = "")

/-- The operator `===` on two primitives. -/
def strictEq : JSPrim → JSPrim → Bool
  | undefined, undefined => true
  | null, null => true
  | bool a, bool b => decide (a = b)
  | num .nan, num _ => false
  | num _, num .nan => false
  | num a, num b => decide (a = b)
  | str a, str b => decide (a = b)
  | _, _ => false

end JSPrim

namespace JSVal

/-- The value `undefined`. -/
def undef : JSVal := prim .undefined

/-- A string value. -/
def str (s : String) : JSVal := prim (.str s)

/-- A number value. -/
def num (n : JSNum) : JSVal := prim (.num n)

/-- Truthiness: every array and object is truthy. -/
def isFalsy : JSVal → Bool
  | prim p => p.isFalsy
  | _ => false

/-- The operator `a || b`. -/
def or (a b : JSVal) : JSVal := if a.isFalsy then b else a

/-- The operator `===` against a primitive: an array or object never equals one. -/
def strictEqPrim : JSVal → JSPrim → Bool
  | prim p, q => p.strictEq q
  | _, _ => false

end JSVal

/-- First own property named `key` of a property list. -/
def lookupField (key : String) : List (String × JSVal) → Option JSVal
  | [] => none
  | (k, v) :: rest => if k = key then some v else lookupField key rest

/-- Property read `v.key` for a key that no prototype defines (`id`, `name`, `amount`,
`type`, `dateISO`): `none` is the `TypeError` raised on `null` and `undefined`. -/
def getProp (v : JSVal) (key : String) : Option JSVal :=
  match v with
  | .prim .undefined => none
  | .prim .null => none
  | .prim _ => some JSVal.undef
  | .arr _ => some JSVal.undef
  | .obj fields => some ((lookupField key fields).getD JSVal.undef)

/-! ## Conversions -/

/-- White space and line terminators, as stripped by `trim` and by `Number(...)`. -/
def isJSSpace (c : Char) : Bool :=
  let n := c.toNat
  n = 0x9 || n = 0xA || n = 0xB || n = 0xC || n = 0xD || n = 0x20 || n = 0xA0 ||
  n = 0x1680 || (0x2000 ≤ n && n ≤ 0x200A) || n = 0x2028 || n = 0x2029 ||
  n = 0x202F || n = 0x205F || n = 0x3000 || n = 0xFEFF

/-- Both ends stripped of white space. -/
def trimChars (cs : List Char) : List Char :=
  ((cs.dropWhile isJSSpace).reverse.dropWhile isJSSpace).reverse

/-- The method `String.prototype.trim`. -/
def jsTrim (s : String) : String := String.mk (trimChars s.data)

/-- Value of a digit character in bases up to 36. -/
def digitValue (c : Char) : Option Nat :=
  let n := c.toNat
  if 48 ≤ n ∧ n ≤ 57 then some (n - 48)
  else if 97 ≤ n ∧ n ≤ 122 then some (n - 87)
  else if 65 ≤ n ∧ n ≤ 90 then some (n - 55)
  else none

/-- A non-empty run of digits of the given base, read as a natural number. -/
def readDigits (base : Nat) (cs : List Char) : Option Nat :=
  match cs with
  | [] => none
  | _ => cs.foldl (fun acc c =>
      match acc, digitValue c with
      | some n, some d => if d < base then some (n * base + d) else none
      | _, _ => none) (some 0)

/-- An optionally signed run of decimal digits (the exponent of a literal). -/
def readSignedInt (cs : List Char) : Option Int :=
  match cs with
  | '+' :: r => (readDigits 10 r).map Int.ofNat
  | '-' :: r => (readDigits 10 r).map (fun n => - Int.ofNat n)
  | _ => (readDigits 10 cs).map Int.ofNat

/-- Mantissa of an unsigned decimal literal: `ip`, `ip.`, `ip.fp` or `.fp`. -/
def readMantissa (ip : List Char) (dotAndFraction : List Char) : Option ℚ :=
  match dotAndFraction with
  | [] => (readDigits 10 ip).map (fun n => (n : ℚ))
  | _ :: fp =>
    match ip, fp with
    | [], [] => none
    | _, [] => (readDigits 10 ip).map (fun n => (n : ℚ))
    | [], _ => (readDigits 10 fp).map (fun n => (n : ℚ) / 10 ^ fp.length)
    | _, _ =>
      match readDigits 10 ip, readDigits 10 fp with
      | some i, some f => some ((i : ℚ) + (f : ℚ) / 10 ^ fp.length)
      | _, _ => none

/-- An unsigned decimal literal with optional fraction and exponent. -/
def readUnsignedDecimal (cs : List Char) : Option ℚ :=
  let parts := cs.span (fun c => !(c == 'e' || c == 'E'))
  let mant := parts.1.span (fun c => c != '.')
  let exponent : Option Int :=
    match parts.2 with
    | [] => some 0
    | _ :: e => readSignedInt e
  match readMantissa mant.1 mant.2, exponent with
  | some m, some e => some (m * (10 : ℚ) ^ e)
  | _, _ => none

/-- Radix and digits of a `0x`, `0o` or `0b` literal. -/
def radixOf : List Char → Option (Nat × List Char)
  | '0' :: c :: ds =>
    if c = 'x' ∨ c = 'X' then some (16, ds)
    else if c = 'o' ∨ c = 'O' then some (8, ds)
    else if c = 'b' ∨ c = 'B' then some (2, ds)
    else none
  | _ => none

/-- A signed decimal literal or a signed `Infinity`. -/
def readSignedDecimal (negative : Bool) (body : List Char) : JSNum :=
  if body = "Infinity".data then (if negative then .negInf else .posInf)
  else
    match readUnsignedDecimal body with
    | some q => toDouble (if negative then -q else q)
    | none => .nan

/-- The conversion `Number(s)` of a string: the literal's value rounded to a double. -/
def stringToNumber (s : String) : JSNum :=
  match trimChars s.data with
  | [] => .fin 0
  | cs =>
    match radixOf cs with
    | some (base, ds) =>
      (match readDigits base ds with
       | some n => toDouble n
       | none => .nan)
    | none =>
      match cs with
      | '+' :: r => readSignedDecimal false r
      | '-' :: r => readSignedDecimal true r
      | _ => readSignedDecimal false cs

namespace JSPrim

/-- The conversion `Number(p)` of a primitive. -/
def toNumber : JSPrim → JSNum
  | undefined => .nan
  | null => .fin 0
  | bool true => .fin 1
  | bool false => .fin 0
  | num n => n
  | str s => stringToNumber s

/-- The conversion `String(p)` of a primitive; `fmt` prints a finite number. -/
def toStr (fmt : ℚ → String) : JSPrim → String
  | undefined => "undefined"
  | null => "null"
  | bool true => "true"
  | bool false => "false"
  | num .nan => "NaN"
  | num .posInf => "Infinity"
  | num .negInf => "-Infinity"
  | num (.fin q) => fmt q
  | str s => s

end JSPrim

/-- The text `join` uses for a primitive element: empty for `undefined` and `null`. -/
def JSPrim.joinStr (fmt : ℚ → String) : JSPrim → String
  | .undefined => ""
  | .null => ""
  | p => p.toStr fmt

/-- One step of `join(",")`: the text of an element followed by the joined rest. -/
def joinStep (last : Bool) (head rest : Option String) : Option String :=
  match head, rest with
  | some a, some b => some (if last then a else a ++ "," ++ b)
  | _, _ => none

namespace JSVal

mutual
/-- The conversion `String(v)`; `none` is the `TypeError` of an object that cannot be
converted to a primitive (its own `toString` property is not a function). -/
def toStr (fmt : ℚ → String) : JSVal → Option String
  | prim p => some (p.toStr fmt)
  | arr items => joinItems fmt items
  | obj fields => if (lookupField "toString" fields).isSome then none else some "[object Object]"
/-- The method `Array.prototype.join(",")`. -/
def joinItems (fmt : ℚ → String) : List JSVal → Option String
  | [] => some ""
  | prim p :: rest => joinStep rest.isEmpty (some (p.joinStr fmt)) (joinItems fmt rest)
  | arr items :: rest => joinStep rest.isEmpty (joinItems fmt items) (joinItems fmt rest)
  | obj fields :: rest =>
    joinStep rest.isEmpty (toStr fmt (obj fields)) (joinItems fmt rest)
end

/-- The conversion `Number(v)`; `none` is a `TypeError` as for `toStr`. -/
def toNumber (fmt : ℚ → String) : JSVal → Option JSNum
  | prim p => some p.toNumber
  | arr items => (joinItems fmt items).map stringToNumber
  | obj fields => if (lookupField "toString" fields).isSome then none else some .nan

end JSVal

/-- An argument of `addTransaction`: a value, or a symbol with its description. -/
inductive JSArg where
  | val (v : JSVal)
  | symbol (description : Option String)

namespace JSArg

/-- The conversion `String(a)`: a symbol prints as `Symbol(description)`. -/
def toStr (fmt : ℚ → String) : JSArg → Option String
  | val v => v.toStr fmt
  | symbol d => some ("Symbol(" ++ d.getD "" ++ ")")

/-- The conversion `Number(a)`: a symbol throws a `TypeError`. -/
def toNumber (fmt : ℚ → String) : JSArg → Option JSNum
  | val v => v.toNumber fmt
  | symbol _ => none

/-- The test `a === s` against a string. -/
def isString (s : String) : JSArg → Bool
  | val v => v.strictEqPrim (.str s)
  | symbol _ => false

/-- A string argument. -/
def str (s : String) : JSArg := val (JSVal.str s)

/-- A number argument. -/
def num (n : JSNum) : JSArg := val (JSVal.num n)

end JSArg

/-! ## JSON -/

/-- What `JSON.parse(JSON.stringify(n))` is for a number: a non-finite number is
written as `null`. -/
def jsonNum : JSNum → JSPrim
  | .fin q => .num (.fin q)
  | _ => .null

mutual
/-- What `JSON.parse(JSON.stringify(v))` is, for `v` other than `undefined`. -/
def reparse : JSVal → JSVal
  | .prim (.num n) => .prim (jsonNum n)
  | .prim p => .prim p
  | .arr items => .arr (reparseItems items)
  | .obj fields => .obj (reparseFields fields)
/-- Array elements through JSON: `undefined` is written as `null`. -/
def reparseItems : List JSVal → List JSVal
  | [] => []
  | v :: rest =>
    (match v with
     | .prim .undefined => .prim .null
     | _ => reparse v) :: reparseItems rest
/-- Object properties through JSON: a property holding `undefined` is left out. -/
def reparseFields : List (String × JSVal) → List (String × JSVal)
  | [] => []
  | (k, v) :: rest =>
    match v with
    | .prim .undefined => reparseFields rest
    | _ => (k, reparse v) :: reparseFields rest
end

mutual
/-- Values that JSON writes and reads back unchanged: no `undefined`, and only finite
numbers. -/
def isJSON : JSVal → Bool
  | .prim .undefined => false
  | .prim (.num n) => n.isFinite
  | .prim _ => true
  | .arr items => isJSONItems items
  | .obj fields => isJSONFields fields
/-- Every element is a JSON value. -/
def isJSONItems : List JSVal → Bool
  | [] => true
  | v :: rest => isJSON v && isJSONItems rest
/-- Every property holds a JSON value. -/
def isJSONFields : List (String × JSVal) → Bool
  | [] => true
  | (_, v) :: rest => isJSON v && isJSONFields rest
end

mutual
/-- Values that `JSON.parse` can build: no `undefined` and no `NaN`; an infinity is
what a literal beyond the double range, such as `1e999`, is read as. -/
def isParsed : JSVal → Bool
  | .prim .undefined => false
  | .prim (.num .nan) => false
  | .prim _ => true
  | .arr items => isParsedItems items
  | .obj fields => isParsedFields fields
/-- Every element is a parsed value. -/
def isParsedItems : List JSVal → Bool
  | [] => true
  | v :: rest => isParsed v && isParsedItems rest
/-- Every property holds a parsed value. -/
def isParsedFields : List (String × JSVal) → Bool
  | [] => true
  | (_, v) :: rest => isParsed v && isParsedFields rest
end

mutual
/-- No number inside the value is an infinity or `NaN`. -/
def finiteNumbers : JSVal → Bool
  | .prim (.num n) => n.isFinite
  | .prim _ => true
  | .arr items => finiteNumbersItems items
  | .obj fields => finiteNumbersFields fields
/-- No number inside an element is an infinity or `NaN`. -/
def finiteNumbersItems : List JSVal → Bool
  | [] => true
  | v :: rest => finiteNumbers v && finiteNumbersItems rest
/-- No number inside a property is an infinity or `NaN`. -/
def finiteNumbersFields : List (String × JSVal) → Bool
  | [] => true
  | (_, v) :: rest => finiteNumbers v && finiteNumbersFields rest
end

/-! ## State -/

/-- A transaction as the store keeps it in memory: `name` is always built by
`String(...)`, `amount` by `Number(...) || 0`, and `type` is a string. -/
structure Transaction where
  id : JSVal
  name : String
  amount : JSNum
  type : String
  dateISO : JSVal

/-- What `localStorage.getItem(LS_KEY)` returns, by the way `loadTransactions` reads it. -/
inductive Stored where
  | missing
  | empty
  | garbage (raw : String)
  | json (v : JSVal)

/-- The page state: the global `transactions` and the item stored under `LS_KEY`. -/
structure Store where
  transactions : List Transaction
  blob : Stored

/-- An own property of an object literal as JSON keeps it. -/
def jsonField (key : String) (v : JSVal) : List (String × JSVal) :=
  match v with
  | .prim .undefined => []
  | _ => [(key, reparse v)]

/-- One transaction through `JSON.stringify` and `JSON.parse`. -/
def encodeTx (t : Transaction) : JSVal :=
  .obj (jsonField "id" t.id ++
        [("name", JSVal.str t.name),
         ("amount", .prim (jsonNum t.amount)),
         ("type", JSVal.str t.type)] ++
        jsonField "dateISO" t.dateISO)

/-- What `JSON.parse` makes of `JSON.stringify(transactions)`. -/
def encode (txs : List Transaction) : JSVal := .arr (txs.map encodeTx)

/-! ## The store operations -/

/-- The function `saveTransactions` of `index.js`. -/
def saveTransactions (s : Store) : Store :=
  { s with blob := .json (encode s.transactions) }

/-- The callback of `parsed.map(...)` in `loadTransactions`; `now` is what
`new Date().toISOString()` returns and `none` is a thrown `TypeError`. -/
def normalize (fmt : ℚ → String) (now : String) (t : JSVal) : Option Transaction := do
  let id ← getProp t "id"
  let name ← (← getProp t "name").or (JSVal.str "") |>.toStr fmt
  let amount ← (← getProp t "amount").toNumber fmt
  let type ← getProp t "type"
  let dateISO ← getProp t "dateISO"
  pure { id := id
         name := name
         amount := amount.orZero
         type := if type.strictEqPrim (.str "expense") then "expense" else "income"
         dateISO := dateISO.or (JSVal.str now) }

/-- The call `parsed.map(...)`: the record at index `i` reads the clock as `clock i`. -/
def normalizeAll (fmt : ℚ → String) (clock : Nat → String) : Nat → List JSVal →
    Option (List Transaction)
  | _, [] => some []
  | i, t :: rest =>
    match normalize fmt (clock i) t, normalizeAll fmt clock (i + 1) rest with
    | some tx, some txs => some (tx :: txs)
    | _, _ => none

/-- The function `loadTransactions` of `index.js`. -/
def loadTransactions (fmt : ℚ → String) (clock : Nat → String) (s : Store) : Store :=
  match s.blob with
  | .missing => saveTransactions { s with transactions := [] }
  | .empty => saveTransactions { s with transactions := [] }
  | .garbage _ => { s with transactions := [] }
  | .json (.arr items) =>
    match normalizeAll fmt clock 0 items with
    | some txs => { s with transactions := txs }
    | none => { s with transactions := [] }
  | .json _ => { s with transactions := [] }

/-- A digit of `Number.prototype.toString(36)`. -/
def radixChar (d : Nat) : Char :=
  if d < 10 then Char.ofNat (48 + d) else Char.ofNat (87 + d)

/-- Digits of `n` in the given base, most significant first. -/
def radixDigits (base : Nat) : Nat → Nat → List Char → List Char
  | 0, _, acc => acc
  | fuel + 1, n, acc =>
    if n / base = 0 then radixChar (n % base) :: acc
    else radixDigits base fuel (n / base) (radixChar (n % base) :: acc)

/-- The call `n.toString(36)` on an integer. -/
def toString36 (n : Int) : String :=
  let digits := String.mk (radixDigits 36 (n.natAbs + 1) n.natAbs [])
  if n < 0 then "-" ++ digits else digits

/-- The call `x.toString(36)` on a number that `Math.floor` returned. -/
def numToString36 : JSNum → String
  | .nan => "NaN"
  | .posInf => "Infinity"
  | .negInf => "-Infinity"
  | .fin q => toString36 ⌊q⌋

/-- The id expression of `addTransaction`,
`Date.now().toString(36) + Math.floor(Math.random()*10000).toString(36)`:
`now` is `Date.now()` and `rnd` is `Math.random()`. -/
def newId (now : Int) (rnd : ℚ) : String :=
  toString36 now ++ numToString36 ((JSNum.fin rnd).mul (.fin 10000)).floor

/-- The record `tx` that `addTransaction` builds; `none` when `String(name)` or
`Number(amount)` throws. -/
def newTransaction (fmt : ℚ → String) (now : Int) (rnd : ℚ) (iso : String)
    (name amount type : JSArg) : Option Transaction := do
  let nameStr ← name.toStr fmt
  let amountNum ← amount.toNumber fmt
  pure { id := JSVal.str (newId now rnd)
         name := jsTrim nameStr
         amount := amountNum.orZero
         type := if type.isString "expense" then "expense" else "income"
         dateISO := JSVal.str iso }

/-- The function `addTransaction` of `index.js`; `none` when building the record throws,
which happens before `unshift` and leaves the state as it was. -/
def addTransaction (fmt : ℚ → String) (now : Int) (rnd : ℚ) (iso : String)
    (name amount type : JSArg) (s : Store) : Option Store :=
  match newTransaction fmt now rnd iso name amount type with
  | none => none
  | some tx => some (saveTransactions { s with transactions := tx :: s.transactions })

/-- The call `transactions.findIndex(t => t.id === id)`; `none` is `-1`. -/
def findIndex (id : JSPrim) : List Transaction → Option Nat
  | [] => none
  | t :: rest => if t.id.strictEqPrim id then some 0 else (findIndex id rest).map (· + 1)

/-- The function `deleteTransaction` of `index.js`. -/
def deleteTransaction (id : JSPrim) (s : Store) : Store :=
  match findIndex id s.transactions with
  | none => s
  | some idx => saveTransactions { s with transactions := s.transactions.eraseIdx idx }

/-- The function `clearAll` of `index.js`; `confirmed` is the answer of `confirm(...)`. -/
def clearAll (confirmed : Bool) (s : Store) : Store :=
  if !confirmed then s
  else saveTransactions { s with transactions := [] }

/-! ## Totals -/

/-- The result object of `computeTotals`. -/
structure Totals where
  income : JSNum
  expense : JSNum
  balance : JSNum

/-- One turn of the loop of `computeTotals` on the pair `(income, expense)`; the store
only holds numbers as amounts, so `Number(t.amount)` is `t.amount`. -/
def totalsStep (acc : JSNum × JSNum) (t : Transaction) : JSNum × JSNum :=
  if t.type = "income" then (acc.1.add t.amount.orZero, acc.2)
  else (acc.1, acc.2.add t.amount.orZero)

/-- The function `computeTotals` of `index.js` on the list `transactions`. -/
def computeTotals (transactions : List Transaction) : Totals :=
  let sums := transactions.foldl totalsStep (JSNum.fin 0, JSNum.fin 0)
  let income := ((sums.1.mul (.fin 100)).round).div (.fin 100)
  let expense := ((sums.2.mul (.fin 100)).round).div (.fin 100)
  let balance := (((income.sub expense).mul (.fin 100)).round).div (.fin 100)
  { income := income, expense := expense, balance := balance }

/-! ## The totals as the specification words them -/

/-- The amounts of the records whose type is `ty`, in list order. -/
def amountsOfType (ty : String) (txs : List Transaction) : List JSNum :=
  (txs.filter (fun t => decide (t.type = ty))).map (fun t => t.amount)

/-- The sum of a list of numbers, added left to right from `0`. -/
def sumOf (l : List JSNum) : JSNum := l.foldl JSNum.add (.fin 0)

/-- Rounding to two decimal places with a given rule for rounding to an integer: scale by
`100`, round, scale back, each product and quotient being a double. -/
def toCents (rule : JSNum → JSNum) (x : JSNum) : JSNum :=
  (rule (x.mul (.fin 100))).div (.fin 100)

/-- Rounding of a rational to an integer, ties away from zero. -/
def roundHalfAway (x : ℚ) : ℤ := if 0 ≤ x then ⌊x + 1 / 2⌋ else -⌊-x + 1 / 2⌋

/-- Rounding of a number to an integer, ties away from zero (the rule the specification
names). -/
def JSNum.roundHalfAway : JSNum → JSNum
  | .fin q => .fin (CostCalculator.roundHalfAway q : ℤ)
  | x => x

/-! ## Stored records -/

mutual
/-- Values on which `String(...)` and `Number(...)` do not throw: no object with an own
`toString` property (which JSON can only fill with a non-function), at any depth of
array nesting. -/
def convertible : JSVal → Bool
  | .prim _ => true
  | .arr items => convertibleItems items
  | .obj fields => !(lookupField "toString" fields).isSome
/-- Every element that `join` converts is convertible. -/
def convertibleItems : List JSVal → Bool
  | [] => true
  | v :: rest => convertible v && convertibleItems rest
end

/-- The property `key` of a stored value, `undefined` when it has none. -/
def fieldOf (key : String) : JSVal → JSVal
  | .obj fields => (lookupField key fields).getD JSVal.undef
  | _ => JSVal.undef

/-- A stored record: an object whose `name` and `amount` are absent or convertible;
`id`, `type` and `dateISO` are arbitrary. -/
def isRecord (v : JSVal) : Bool :=
  match v with
  | .obj _ => convertible (fieldOf "name" v) && convertible (fieldOf "amount" v)
  | _ => false

/-- The stored record of the specification example: `amount: "abc"`, `type: "bogus"`. -/
def malformedRecord : JSVal :=
  .obj [("amount", JSVal.str "abc"), ("type", JSVal.str "bogus")]

/-! ## Reachable states -/

/-- A stored item as `localStorage` can hold it: any text, whose parse (when it parses)
is a value `JSON.parse` can build. -/
def validStored : Stored → Bool
  | .json v => isParsed v
  | _ => true

/-- States reachable from the initial `loadTransactions` by `addTransaction`,
`deleteTransaction` and `clearAll`; `toISOString()` never returns the empty string. -/
inductive Reachable (fmt : ℚ → String) : Store → Prop where
  | load (blob : Stored) (clock : Nat → String) :
      validStored blob = true → (∀ i, clock i ≠ "") →
      Reachable fmt (loadTransactions fmt clock ⟨[], blob⟩)
  | add (s s' : Store) (now : Int) (rnd : ℚ) (iso : String) (name amount type : JSArg) :
      Reachable fmt s → iso ≠ "" →
      addTransaction fmt now rnd iso name amount type s = some s' →
      Reachable fmt s'
  | delete (s : Store) (id : JSPrim) :
      Reachable fmt s → Reachable fmt (deleteTransaction id s)
  | clear (s : Store) (confirmed : Bool) :
      Reachable fmt s → Reachable fmt (clearAll confirmed s)

/-- The ids of a list of transactions, in order. -/
def idsOf (txs : List Transaction) : List JSVal := txs.map (fun t => t.id)

/-- The ids of the stored records, when the stored item is an array. -/
def storedIds : Stored → List JSVal
  | .json (.arr items) => items.map (fieldOf "id")
  | _ => []

/-- A record as every reachable state holds it: the id is missing or a parsed value,
the type is one of the two type strings, and the timestamp is a truthy parsed value. -/
structure WellFormed (t : Transaction) : Prop where
  id : t.id = JSVal.undef ∨ isParsed t.id = true
  type : t.type = "income" ∨ t.type = "expense"
  date : isParsed t.dateISO = true
  dated : t.dateISO.isFalsy = false

/-- No number of the record is infinite: not the amount, and none inside the id or the
timestamp. -/
def finiteRecord (t : Transaction) : Bool :=
  t.amount.isFinite && finiteNumbers t.id && finiteNumbers t.dateISO

/-- A record that `saveTransactions` writes and `loadTransactions` reads back unchanged:
the id is missing or a JSON value, the type is one of the two type strings, the
timestamp is a truthy JSON value, and the amount is finite. -/
structure Storable (t : Transaction) : Prop where
  id : t.id = JSVal.undef ∨ isJSON t.id = true
  type : t.type = "income" ∨ t.type = "expense"
  date : isJSON t.dateISO = true
  dated : t.dateISO.isFalsy = false
  amount : t.amount.isFinite = true

/-- The stored item is exactly what `saveTransactions` writes for the list in memory. -/
def Persisted (s : Store) : Prop := s.blob = .json (encode s.transactions)

/-! ## Example data -/

/-- A printer for finite numbers used in examples (integers only). -/
def fmtInt (q : ℚ) : String := toString q.num

/-- A clock that always reads the first instant of 2024. -/
def clockA (_ : Nat) : String := "2024-01-01T00:00:00.000Z"

/-- A clock that always reads one second later than `clockA`. -/
def clockB (_ : Nat) : String := "2024-01-01T00:00:01.000Z"

/-- An example record with the given id, amount and type. -/
def sampleTx (id : String) (amount : ℚ) (type : String) : Transaction :=
  { id := JSVal.str id
    name := "item"
    amount := .fin amount
    type := type
    dateISO := JSVal.str "2024-01-01T00:00:00.000Z" }

/-- The double that the literal `10.005` denotes. -/
def tenPointZeroZeroFive : ℚ := 5632314283980227 / 562949953421312

/-- The records of the specification example: 100 income, 40 expense, 10.005 expense. -/
def exampleTxs : List Transaction :=
  [sampleTx "a" 100 "income", sampleTx "b" 40 "expense",
   sampleTx "c" tenPointZeroZeroFive "expense"]

/-- A single income record of amount `-0.125`. -/
def negativeTieTxs : List Transaction := [sampleTx "n" (-1 / 8) "income"]

/-- A stored array whose only record has an id and nothing else. -/
def bareRecordBlob : Stored := .json (.arr [.obj [("id", JSVal.str "a")]])

/-- A stored array whose only record has an id and a timestamp. -/
def datedRecordBlob : Stored :=
  .json (.arr [.obj [("id", JSVal.str "a"), ("dateISO", JSVal.str "2023-05-05T10:00:00.000Z")]])

/-- The state after a call that may throw: the new state, or the old one. -/
def stateAfter (s : Store) (result : Option Store) : Store := result.getD s

/-- The store right after the first load of a browser that never saved anything. -/
def freshStore : Store := loadTransactions fmtInt clockA ⟨[], .missing⟩

/-- The store after one addition at a fixed instant with the draw `0.5`. -/
def coffeeStore : Store :=
  stateAfter freshStore
    (addTransaction fmtInt 1700000000000 (1 / 2) "2023-11-14T22:13:20.000Z"
      (.str "coffee") (.num (.fin 5)) (.str "expense") freshStore)

/-- Two additions made in the same millisecond with the same random draw. -/
def sameInstantStore : Store :=
  stateAfter coffeeStore
    (addTransaction fmtInt 1700000000000 (1 / 2) "2023-11-14T22:13:20.000Z"
      (.str "tea") (.num (.fin 3)) (.str "expense") coffeeStore)

/-- One addition with the amount `Infinity` after the first load. -/
def infiniteAmountStore : Store :=
  stateAfter freshStore
    (addTransaction fmtInt 1700000000000 (1 / 2) "2023-11-14T22:13:20.000Z"
      (.str "gift") (.num .posInf) (.str "income") freshStore)

/-- One addition with the amount `12.5` after the first load. -/
def oneAdditionStore : Store :=
  stateAfter freshStore
    (addTransaction fmtInt 1700000000000 (1 / 2) "2023-11-14T22:13:20.000Z"
      (.str "lunch") (.num (.fin (25 / 2))) (.str "expense") freshStore)

/-- A stored array whose only record has an id and an amount that is not a number. -/
def unnormalizedBlob : Stored :=
  .json (.arr [.obj [("id", JSVal.str "a"), ("amount", JSVal.str "abc")]])

/-- A stored record whose name is an object with an own `toString` property. -/
def unconvertibleRecord : JSVal :=
  .obj [("id", JSVal.str "b"), ("name", .obj [("toString", JSVal.num (.fin 1))])]

/-- A well-formed stored record. -/
def goodRecord : JSVal :=
  .obj [("id", JSVal.str "a"), ("name", JSVal.str "rent"), ("amount", JSVal.num (.fin 700)),
        ("type", JSVal.str "expense"), ("dateISO", JSVal.str "2023-05-05T10:00:00.000Z")]

/-- A stored array whose only record has the id `Infinity`, as the text
`[{"id":1e999,...}]` is parsed. -/
def infiniteIdBlob : Stored :=
  .json (.arr [.obj [("id", JSVal.num .posInf), ("name", JSVal.str "rent"),
    ("amount", JSVal.num (.fin 700)), ("type", JSVal.str "expense"),
    ("dateISO", JSVal.str "2023-05-05T10:00:00.000Z")]])

/-- A store holding three records with the ids `a`, `b` and `c`. -/
def threeRecordStore : Store :=
  ⟨[sampleTx "a" 5 "income", sampleTx "b" 7 "expense", sampleTx "c" 9 "income"], .missing⟩

/-- A stored array of two records with the ids `a` and `b`. -/
def twoRecordBlob : Stored :=
  .json (.arr [goodRecord, .obj [("id", JSVal.str "b"), ("amount", JSVal.num (.fin 3))]])

/-! ## Facts about `findIndex` -/

theorem findIndex_eq_none (id : JSPrim) (l : List Transaction) :
    findIndex id l = none ↔ ∀ t ∈ l, t.id.strictEqPrim id = false := by
  induction l with
  | nil => simp [findIndex]
  | cons a l ih =>
    by_cases h : a.id.strictEqPrim id = true
    · simp [findIndex, h]
    · simp [findIndex, h, ih]

theorem findIndex_eq_some (id : JSPrim) (l : List Transaction) (i : Nat)
    (h : findIndex id l = some i) :
    ∃ l₁ t l₂, l = l₁ ++ t :: l₂ ∧ l₁.length = i ∧ t.id.strictEqPrim id = true ∧
      (∀ u ∈ l₁, u.id.strictEqPrim id = false) ∧ l.eraseIdx i = l₁ ++ l₂ := by
  induction l generalizing i with
  | nil => simp [findIndex] at h
  | cons a l ih =>
    by_cases ha : a.id.strictEqPrim id = true
    · simp [findIndex, ha] at h
      subst h
      exact ⟨[], a, l, by simp, rfl, ha, by simp, by simp⟩
    · simp [findIndex, ha] at h
      obtain ⟨j, hj, rfl⟩ := h
      obtain ⟨l₁, t, l₂, hl, hlen, ht, hno, her⟩ := ih j hj
      refine ⟨a :: l₁, t, l₂, by simp [hl], by simp [hlen], ht, ?_, by simp [her]⟩
      intro u hu
      rcases List.mem_cons.mp hu with rfl | hu
      · simpa using ha
      · exact hno u hu

/-! ## Facts about rounding to a double -/

theorem binade_eq (q : ℚ) (e : ℤ) (hq : q ≠ 0) (he : -1022 ≤ e)
    (h1 : e = -1022 ∨ (2 : ℚ) ^ e ≤ |q|) (h2 : |q| < (2 : ℚ) ^ (e + 1)) : binade q = e := by
  have hpos : 0 < |q| := abs_pos.mpr hq
  have hlt : Int.log 2 |q| < e + 1 :=
    (Int.lt_zpow_iff_log_lt (b := 2) (by norm_num) hpos (x := e + 1)).mp (by exact_mod_cast h2)
  unfold binade
  rcases h1 with h1 | h1
  · subst h1
    exact max_eq_right (by omega)
  · have hle : e ≤ Int.log 2 |q| :=
      (Int.zpow_le_iff_le_log (b := 2) (by norm_num) hpos (x := e)).mp (by exact_mod_cast h1)
    have hlog : Int.log 2 |q| = e := by omega
    rw [hlog]
    exact max_eq_left he

/-- Evaluation of `toDouble` from the binade and the rounded significand. -/
theorem toDouble_eval (q : ℚ) (e n : ℤ) (hq : q ≠ 0) (he : -1022 ≤ e)
    (h1 : e = -1022 ∨ (2 : ℚ) ^ e ≤ |q|) (h2 : |q| < (2 : ℚ) ^ (e + 1))
    (hn : roundTiesEven (q / (2 : ℚ) ^ (e - 52)) = n)
    (hfin : |(n : ℚ) * (2 : ℚ) ^ (e - 52)| < (2 : ℚ) ^ (1024 : ℕ)) :
    toDouble q = .fin ((n : ℚ) * (2 : ℚ) ^ (e - 52)) := by
  have hb := binade_eq q e hq he h1 h2
  simp only [toDouble, ulp, hb, hn]
  rw [if_neg (not_le.mpr hfin)]

/-- Evaluation of `roundTiesEven` from the floor and the position of the fraction. -/
theorem roundTiesEven_eval (x : ℚ) (f n : ℤ) (hf1 : (f : ℚ) ≤ x) (hf2 : x < (f : ℚ) + 1)
    (h : (x - f < 1 / 2 ∧ n = f) ∨ (1 / 2 < x - f ∧ n = f + 1) ∨
      (x - f = 1 / 2 ∧ ((f % 2 = 0 ∧ n = f) ∨ (f % 2 ≠ 0 ∧ n = f + 1)))) :
    roundTiesEven x = n := by
  have hf : ⌊x⌋ = f := by
    rw [Int.floor_eq_iff]
    exact ⟨hf1, hf2⟩
  unfold roundTiesEven
  rw [hf]
  rcases h with ⟨h, rfl⟩ | ⟨h, rfl⟩ | ⟨h, h'⟩
  · rw [if_pos h]
  · rw [if_neg (by linarith), if_pos h]
  · rw [if_neg (by linarith), if_neg (by linarith)]
    rcases h' with ⟨he, rfl⟩ | ⟨he, rfl⟩
    · rw [if_pos he]
    · rw [if_neg he]

theorem roundTiesEven_near (x : ℚ) : |(roundTiesEven x : ℚ) - x| ≤ 1 / 2 := by
  have h1 := Int.floor_le x
  have h2 := Int.lt_floor_add_one x
  unfold roundTiesEven
  rw [abs_le]
  split
  · constructor <;> linarith
  · split
    · push_cast
      constructor <;> linarith
    · split
      · constructor <;> linarith
      · push_cast
        constructor <;> linarith

theorem toDouble_zero : toDouble 0 = .fin 0 := by
  have h : roundTiesEven (0 / ulp 0) = 0 := by
    rw [zero_div]
    exact roundTiesEven_eval 0 0 0 (by norm_num) (by norm_num) (Or.inl ⟨by norm_num, rfl⟩)
  simp only [toDouble, h]
  norm_num

theorem ulp_pos (q : ℚ) : 0 < ulp q := by
  unfold ulp
  positivity

/-- The rounding error of `toDouble`: half a unit in the last place, which is at most
the value times `2^-53` in the normal range and `2^-1075` below it. -/
theorem toDouble_error (q p : ℚ) (h : toDouble q = .fin p) :
    |p - q| ≤ |q| * (2 : ℚ) ^ (-53 : ℤ) ∨ |p - q| ≤ (2 : ℚ) ^ (-1075 : ℤ) := by
  have hu := ulp_pos q
  have hp : p = (roundTiesEven (q / ulp q) : ℚ) * ulp q := by
    simp only [toDouble] at h
    split at h
    · split at h <;> simp at h
    · exact (JSNum.fin.inj h).symm
  have herr : |p - q| ≤ ulp q / 2 := by
    have hr := roundTiesEven_near (q / ulp q)
    have : p - q = ((roundTiesEven (q / ulp q) : ℚ) - q / ulp q) * ulp q := by
      rw [hp]
      field_simp
    rw [this, abs_mul, abs_of_pos hu]
    calc |(roundTiesEven (q / ulp q) : ℚ) - q / ulp q| * ulp q
        ≤ 1 / 2 * ulp q := mul_le_mul_of_nonneg_right hr hu.le
      _ = ulp q / 2 := by ring
  have hhalf : ulp q / 2 = (2 : ℚ) ^ (binade q - 53) := by
    unfold ulp
    rw [show binade q - 52 = (binade q - 53) + 1 by ring, zpow_add_one₀ (by norm_num)]
    ring
  rw [hhalf] at herr
  by_cases hq : q = 0
  · left
    subst hq
    rw [toDouble_zero] at h
    rw [← JSNum.fin.inj h]
    simp
  by_cases hb : binade q = -1022
  · right
    rw [hb] at herr
    simpa using herr
  · left
    have hlog : binade q = Int.log 2 |q| := by
      unfold binade at hb ⊢
      rcases max_cases (Int.log 2 |q|) (-1022) with ⟨h1, _⟩ | ⟨h1, _⟩
      · exact h1
      · exact absurd h1 hb
    have hpos : 0 < |q| := abs_pos.mpr hq
    have hle : (2 : ℚ) ^ (Int.log 2 |q|) ≤ |q| := by
      have := Int.zpow_log_le_self (b := 2) (by norm_num) hpos
      exact_mod_cast this
    calc |p - q| ≤ (2 : ℚ) ^ (binade q - 53) := herr
      _ = (2 : ℚ) ^ (Int.log 2 |q|) * (2 : ℚ) ^ (-53 : ℤ) := by
          rw [hlog, ← zpow_add₀ (by norm_num)]
          rfl
      _ ≤ |q| * (2 : ℚ) ^ (-53 : ℤ) :=
          mul_le_mul_of_nonneg_right hle (by positivity)

/-- A value beyond the double range overflows to `Infinity`. -/
theorem toDouble_overflow (q : ℚ) (h : (2 : ℚ) ^ (1024 : ℕ) ≤ q) : toDouble q = .posInf := by
  have hq0 : 0 < q := lt_of_lt_of_le (by positivity) h
  have habs : |q| = q := abs_of_pos hq0
  have hlog' : ((1024 : ℕ) : ℤ) ≤ Int.log 2 q :=
    (Int.zpow_le_iff_le_log (b := 2) (by norm_num) hq0 (x := ((1024 : ℕ) : ℤ))).mp (by
      have h' : (2 : ℚ) ^ ((1024 : ℕ) : ℤ) ≤ q := (zpow_natCast (2 : ℚ) 1024).symm ▸ h
      rwa [← Nat.cast_ofNat (R := ℚ)] at h')
  have hlog : (1024 : ℤ) ≤ Int.log 2 |q| := by
    rw [habs]
    exact hlog'
  have hb : binade q = Int.log 2 |q| := max_eq_left (by omega)
  have hu := ulp_pos q
  have hpow : (2 : ℚ) ^ (Int.log 2 |q|) ≤ q := by
    have := Int.zpow_log_le_self (b := 2) (by norm_num) hq0
    rw [habs]
    exact_mod_cast this
  have hx : (2 : ℚ) ^ (52 : ℕ) ≤ q / ulp q := by
    rw [le_div_iff₀ hu]
    unfold ulp
    rw [hb]
    calc (2 : ℚ) ^ (52 : ℕ) * (2 : ℚ) ^ (Int.log 2 |q| - 52)
        = (2 : ℚ) ^ (Int.log 2 |q|) := by
          rw [← zpow_natCast, ← zpow_add₀ (by norm_num)]
          congr 1
          push_cast
          ring
      _ ≤ q := hpow
  have hfloor : ((2 : ℤ) ^ (52 : ℕ) : ℤ) ≤ ⌊q / ulp q⌋ := by
    rw [Int.le_floor]
    push_cast
    exact hx
  have hround : ((2 : ℤ) ^ (52 : ℕ) : ℤ) ≤ roundTiesEven (q / ulp q) := by
    unfold roundTiesEven
    split
    · exact hfloor
    · split
      · omega
      · split
        · exact hfloor
        · omega
  have hr : (2 : ℚ) ^ (1024 : ℕ) ≤ |(roundTiesEven (q / ulp q) : ℚ) * ulp q| := by
    have hc : ((2 : ℚ) ^ (52 : ℕ)) ≤ (roundTiesEven (q / ulp q) : ℚ) := by
      exact_mod_cast hround
    have hnn : 0 ≤ (roundTiesEven (q / ulp q) : ℚ) := le_trans (by positivity) hc
    rw [abs_of_nonneg (mul_nonneg hnn hu.le)]
    calc (2 : ℚ) ^ (1024 : ℕ) = (2 : ℚ) ^ (52 : ℕ) * (2 : ℚ) ^ ((1024 : ℤ) - 52) := by
          norm_num
      _ ≤ (2 : ℚ) ^ (52 : ℕ) * ulp q := by
          apply mul_le_mul_of_nonneg_left _ (by positivity)
          unfold ulp
          rw [hb]
          exact zpow_le_zpow_right₀ (by norm_num) (by omega)
      _ ≤ (roundTiesEven (q / ulp q) : ℚ) * ulp q :=
          mul_le_mul_of_nonneg_right hc hu.le
  simp only [toDouble]
  rw [if_pos hr, if_pos hq0]

/-! ## Doubles used in the examples -/

theorem toDouble_literal_10_005 : toDouble (2001 / 200) = .fin (5632314283980227 / 562949953421312) := by
  have h := toDouble_eval (2001 / 200) (3) (5632314283980227) (by norm_num) (by norm_num)
    (Or.inr (by norm_num [le_abs])) (by norm_num [abs_lt])
    (roundTiesEven_eval _ (5632314283980226) _ (by norm_num) (by norm_num)
      (Or.inr (Or.inl ⟨by norm_num, by norm_num⟩)))
    (by norm_num [abs_lt])
  rw [h]
  norm_num

theorem toDouble_sum_income : toDouble (0 + 100) = .fin 100 := by
  have h := toDouble_eval (0 + 100) (6) (7036874417766400) (by norm_num) (by norm_num)
    (Or.inr (by norm_num [le_abs])) (by norm_num [abs_lt])
    (roundTiesEven_eval _ (7036874417766400) _ (by norm_num) (by norm_num)
      (Or.inl ⟨by norm_num, by norm_num⟩))
    (by norm_num [abs_lt])
  rw [h]
  norm_num

theorem toDouble_scaled_income : toDouble (100 * 100) = .fin 10000 := by
  have h := toDouble_eval (100 * 100) (13) (5497558138880000) (by norm_num) (by norm_num)
    (Or.inr (by norm_num [le_abs])) (by norm_num [abs_lt])
    (roundTiesEven_eval _ (5497558138880000) _ (by norm_num) (by norm_num)
      (Or.inl ⟨by norm_num, by norm_num⟩))
    (by norm_num [abs_lt])
  rw [h]
  norm_num

theorem toDouble_cents_income : toDouble (10000 / 100) = .fin 100 := by
  have h := toDouble_eval (10000 / 100) (6) (7036874417766400) (by norm_num) (by norm_num)
    (Or.inr (by norm_num [le_abs])) (by norm_num [abs_lt])
    (roundTiesEven_eval _ (7036874417766400) _ (by norm_num) (by norm_num)
      (Or.inl ⟨by norm_num, by norm_num⟩))
    (by norm_num [abs_lt])
  rw [h]
  norm_num

theorem toDouble_sum_40 : toDouble (0 + 40) = .fin 40 := by
  have h := toDouble_eval (0 + 40) (5) (5629499534213120) (by norm_num) (by norm_num)
    (Or.inr (by norm_num [le_abs])) (by norm_num [abs_lt])
    (roundTiesEven_eval _ (5629499534213120) _ (by norm_num) (by norm_num)
      (Or.inl ⟨by norm_num, by norm_num⟩))
    (by norm_num [abs_lt])
  rw [h]
  norm_num

theorem toDouble_sum_expense : toDouble (40 + 5632314283980227 / 562949953421312) = .fin (7037578105208177 / 140737488355328) := by
  have h := toDouble_eval (40 + 5632314283980227 / 562949953421312) (5) (7037578105208177) (by norm_num) (by norm_num)
    (Or.inr (by norm_num [le_abs])) (by norm_num [abs_lt])
    (roundTiesEven_eval _ (7037578105208176) _ (by norm_num) (by norm_num)
      (Or.inr (Or.inl ⟨by norm_num, by norm_num⟩)))
    (by norm_num [abs_lt])
  rw [h]
  norm_num

theorem toDouble_scaled_expense : toDouble ((7037578105208177 / 140737488355328) * 100) = .fin (10001 / 2) := by
  have h := toDouble_eval ((7037578105208177 / 140737488355328) * 100) (12) (5498107894693888) (by norm_num) (by norm_num)
    (Or.inr (by norm_num [le_abs])) (by norm_num [abs_lt])
    (roundTiesEven_eval _ (5498107894693888) _ (by norm_num) (by norm_num)
      (Or.inl ⟨by norm_num, by norm_num⟩))
    (by norm_num [abs_lt])
  rw [h]
  norm_num

theorem toDouble_50_01 : toDouble (5001 / 100) = .fin (7038281792649953 / 140737488355328) := by
  have h := toDouble_eval (5001 / 100) (5) (7038281792649953) (by norm_num) (by norm_num)
    (Or.inr (by norm_num [le_abs])) (by norm_num [abs_lt])
    (roundTiesEven_eval _ (7038281792649953) _ (by norm_num) (by norm_num)
      (Or.inl ⟨by norm_num, by norm_num⟩))
    (by norm_num [abs_lt])
  rw [h]
  norm_num

theorem toDouble_difference : toDouble (100 + -(7038281792649953 / 140737488355328)) = .fin (7035467042882847 / 140737488355328) := by
  have h := toDouble_eval (100 + -(7038281792649953 / 140737488355328)) (5) (7035467042882847) (by norm_num) (by norm_num)
    (Or.inr (by norm_num [le_abs])) (by norm_num [abs_lt])
    (roundTiesEven_eval _ (7035467042882847) _ (by norm_num) (by norm_num)
      (Or.inl ⟨by norm_num, by norm_num⟩))
    (by norm_num [abs_lt])
  rw [h]
  norm_num

theorem toDouble_scaled_balance : toDouble ((7035467042882847 / 140737488355328) * 100) = .fin 4999 := by
  have h := toDouble_eval ((7035467042882847 / 140737488355328) * 100) (12) (5496458627252224) (by norm_num) (by norm_num)
    (Or.inr (by norm_num [le_abs])) (by norm_num [abs_lt])
    (roundTiesEven_eval _ (5496458627252224) _ (by norm_num) (by norm_num)
      (Or.inl ⟨by norm_num, by norm_num⟩))
    (by norm_num [abs_lt])
  rw [h]
  norm_num

theorem toDouble_sum_neg_eighth : toDouble (0 + -1 / 8) = .fin (-1 / 8) := by
  have h := toDouble_eval (0 + -1 / 8) (-3) (-4503599627370496) (by norm_num) (by norm_num)
    (Or.inr (by norm_num [le_abs])) (by norm_num [abs_lt])
    (roundTiesEven_eval _ (-4503599627370496) _ (by norm_num) (by norm_num)
      (Or.inl ⟨by norm_num, by norm_num⟩))
    (by norm_num [abs_lt])
  rw [h]
  norm_num

theorem toDouble_scaled_neg_eighth : toDouble (-1 / 8 * 100) = .fin (-25 / 2) := by
  have h := toDouble_eval (-1 / 8 * 100) (3) (-7036874417766400) (by norm_num) (by norm_num)
    (Or.inr (by norm_num [le_abs])) (by norm_num [abs_lt])
    (roundTiesEven_eval _ (-7036874417766400) _ (by norm_num) (by norm_num)
      (Or.inl ⟨by norm_num, by norm_num⟩))
    (by norm_num [abs_lt])
  rw [h]
  norm_num

theorem toDouble_neg_0_12 : toDouble (-12 / 100) = .fin (-1080863910568919 / 9007199254740992) := by
  have h := toDouble_eval (-12 / 100) (-4) (-8646911284551352) (by norm_num) (by norm_num)
    (Or.inr (by norm_num [le_abs])) (by norm_num [abs_lt])
    (roundTiesEven_eval _ (-8646911284551353) _ (by norm_num) (by norm_num)
      (Or.inr (Or.inl ⟨by norm_num, by norm_num⟩)))
    (by norm_num [abs_lt])
  rw [h]
  norm_num

theorem toDouble_neg_0_13 : toDouble (-13 / 100) = .fin (-1170935903116329 / 9007199254740992) := by
  have h := toDouble_eval (-13 / 100) (-3) (-4683743612465316) (by norm_num) (by norm_num)
    (Or.inr (by norm_num [le_abs])) (by norm_num [abs_lt])
    (roundTiesEven_eval _ (-4683743612465316) _ (by norm_num) (by norm_num)
      (Or.inl ⟨by norm_num, by norm_num⟩))
    (by norm_num [abs_lt])
  rw [h]
  norm_num

theorem toDouble_literal_0_015 : toDouble (15 / 1000) = .fin (1080863910568919 / 72057594037927936) := by
  have h := toDouble_eval (15 / 1000) (-7) (8646911284551352) (by norm_num) (by norm_num)
    (Or.inr (by norm_num [le_abs])) (by norm_num [abs_lt])
    (roundTiesEven_eval _ (8646911284551352) _ (by norm_num) (by norm_num)
      (Or.inl ⟨by norm_num, by norm_num⟩))
    (by norm_num [abs_lt])
  rw [h]
  norm_num

theorem toDouble_scaled_0_015 : toDouble ((1080863910568919 / 72057594037927936) * 100) = .fin (3 / 2) := by
  have h := toDouble_eval ((1080863910568919 / 72057594037927936) * 100) (0) (6755399441055744) (by norm_num) (by norm_num)
    (Or.inr (by norm_num [le_abs])) (by norm_num [abs_lt])
    (roundTiesEven_eval _ (6755399441055743) _ (by norm_num) (by norm_num)
      (Or.inr (Or.inl ⟨by norm_num, by norm_num⟩)))
    (by norm_num [abs_lt])
  rw [h]
  norm_num

theorem toDouble_draw_half : toDouble (1 / 2 * 10000) = .fin 5000 := by
  have h := toDouble_eval (1 / 2 * 10000) (12) (5497558138880000) (by norm_num) (by norm_num)
    (Or.inr (by norm_num [le_abs])) (by norm_num [abs_lt])
    (roundTiesEven_eval _ (5497558138880000) _ (by norm_num) (by norm_num)
      (Or.inl ⟨by norm_num, by norm_num⟩))
    (by norm_num [abs_lt])
  rw [h]
  norm_num

theorem toDouble_literal_0_0007 : toDouble (7 / 10000) = .fin (6456360425798343 / 9223372036854775808) := by
  have h := toDouble_eval (7 / 10000) (-11) (6456360425798343) (by norm_num) (by norm_num)
    (Or.inr (by norm_num [le_abs])) (by norm_num [abs_lt])
    (roundTiesEven_eval _ (6456360425798343) _ (by norm_num) (by norm_num)
      (Or.inl ⟨by norm_num, by norm_num⟩))
    (by norm_num [abs_lt])
  rw [h]
  norm_num

theorem toDouble_draw_0_0007 : toDouble ((6456360425798343 / 9223372036854775808) * 10000) = .fin 7 := by
  have h := toDouble_eval ((6456360425798343 / 9223372036854775808) * 10000) (2) (7881299347898368) (by norm_num) (by norm_num)
    (Or.inr (by norm_num [le_abs])) (by norm_num [abs_lt])
    (roundTiesEven_eval _ (7881299347898367) _ (by norm_num) (by norm_num)
      (Or.inr (Or.inl ⟨by norm_num, by norm_num⟩)))
    (by norm_num [abs_lt])
  rw [h]
  norm_num

theorem toDouble_12_5 : toDouble (25 / 2) = .fin (25 / 2) := by
  have h := toDouble_eval (25 / 2) (3) (7036874417766400) (by norm_num) (by norm_num)
    (Or.inr (by norm_num [le_abs])) (by norm_num [abs_lt])
    (roundTiesEven_eval _ (7036874417766400) _ (by norm_num) (by norm_num)
      (Or.inl ⟨by norm_num, by norm_num⟩))
    (by norm_num [abs_lt])
  rw [h]
  norm_num

theorem toDouble_1000 : toDouble (1000) = .fin 1000 := by
  have h := toDouble_eval (1000) (9) (8796093022208000) (by norm_num) (by norm_num)
    (Or.inr (by norm_num [le_abs])) (by norm_num [abs_lt])
    (roundTiesEven_eval _ (8796093022208000) _ (by norm_num) (by norm_num)
      (Or.inl ⟨by norm_num, by norm_num⟩))
    (by norm_num [abs_lt])
  rw [h]
  norm_num

/-! ## Facts about the totals -/

theorem add_fin (a b : ℚ) : (JSNum.fin a).add (.fin b) = toDouble (a + b) := rfl

theorem mul_fin (a b : ℚ) : (JSNum.fin a).mul (.fin b) = toDouble (a * b) := rfl

theorem div_fin_hundred (a : ℚ) : (JSNum.fin a).div (.fin 100) = toDouble (a / 100) := by
  simp [JSNum.div]

theorem sub_fin (a b : ℚ) : (JSNum.fin a).sub (.fin b) = toDouble (a + -b) := rfl

theorem round_fin (p : ℚ) (k : ℤ) (hk1 : (k : ℚ) ≤ p + 1 / 2) (hk2 : p + 1 / 2 < (k : ℚ) + 1) :
    (JSNum.fin p).round = .fin (k : ℚ) := by
  have h : ⌊p + 1 / 2⌋ = k := by
    rw [Int.floor_eq_iff]
    exact ⟨hk1, hk2⟩
  simp only [JSNum.round, h]

/-- Evaluation of the code's rounding to two decimals from the double product. -/
theorem toCents_round_fin (q p : ℚ) (k : ℤ) (hm : toDouble (q * 100) = .fin p)
    (hk1 : (k : ℚ) ≤ p + 1 / 2) (hk2 : p + 1 / 2 < (k : ℚ) + 1) :
    toCents JSNum.round (.fin q) = toDouble ((k : ℚ) / 100) := by
  simp only [toCents, mul_fin, hm, round_fin p k hk1 hk2, div_fin_hundred]

theorem toCents_round_zero : toCents JSNum.round (.fin 0) = .fin 0 := by
  have hm : toDouble ((0 : ℚ) * 100) = .fin 0 := by
    rw [zero_mul]
    exact toDouble_zero
  rw [toCents_round_fin 0 0 0 hm (by norm_num) (by norm_num)]
  simp only [Int.cast_zero, zero_div]
  exact toDouble_zero

theorem orZero_of_ne_nan (a : JSNum) (h : a ≠ .nan) : a.orZero = a := by
  cases a with
  | nan => exact absurd rfl h
  | posInf => rfl
  | negInf => rfl
  | fin q => by_cases hq : q = 0 <;> simp [JSNum.orZero, JSNum.isFalsy, hq]

theorem foldl_totalsStep (txs : List Transaction)
    (hty : ∀ t ∈ txs, t.type = "income" ∨ t.type = "expense")
    (hnum : ∀ t ∈ txs, t.amount ≠ .nan) (acc : JSNum × JSNum) :
    txs.foldl totalsStep acc =
      ((amountsOfType "income" txs).foldl JSNum.add acc.1,
       (amountsOfType "expense" txs).foldl JSNum.add acc.2) := by
  induction txs generalizing acc with
  | nil => simp [amountsOfType]
  | cons t txs ih =>
    have hty' : ∀ u ∈ txs, u.type = "income" ∨ u.type = "expense" :=
      fun u hu => hty u (List.mem_cons_of_mem _ hu)
    have hnum' : ∀ u ∈ txs, u.amount ≠ .nan :=
      fun u hu => hnum u (List.mem_cons_of_mem _ hu)
    have ht := orZero_of_ne_nan t.amount (hnum t (List.mem_cons_self _ _))
    rw [List.foldl_cons, ih hty' hnum']
    rcases hty t (List.mem_cons_self _ _) with h | h
    · simp [totalsStep, amountsOfType, h, ht, List.filter_cons]
    · simp [totalsStep, amountsOfType, h, ht, List.filter_cons]

/-- The three totals in terms of the filtered sums. -/
theorem computeTotals_eq (txs : List Transaction)
    (hty : ∀ t ∈ txs, t.type = "income" ∨ t.type = "expense")
    (hnum : ∀ t ∈ txs, t.amount ≠ .nan) :
    (computeTotals txs).income = toCents JSNum.round (sumOf (amountsOfType "income" txs)) ∧
    (computeTotals txs).expense = toCents JSNum.round (sumOf (amountsOfType "expense" txs)) ∧
    (computeTotals txs).balance =
      toCents JSNum.round ((computeTotals txs).income.sub (computeTotals txs).expense) := by
  have hf := foldl_totalsStep txs hty hnum (.fin 0, .fin 0)
  refine ⟨?_, ?_, rfl⟩
  · simp only [computeTotals, hf, sumOf, toCents]
  · simp only [computeTotals, hf, sumOf, toCents]

/-- What the code's rounding returns on a finite sum: the double nearest to a whole number
of hundredths, that number being nearest to the product `q * 100` as the code computes it,
which is within one rounding error of the exact product. -/
theorem toCents_round_spec (q p : ℚ) (hm : (JSNum.fin q).mul (.fin 100) = .fin p) :
    ∃ k : ℤ, toCents JSNum.round (.fin q) = toDouble ((k : ℚ) / 100) ∧
      |(k : ℚ) - p| ≤ 1 / 2 ∧
      (|p - q * 100| ≤ |q * 100| * (2 : ℚ) ^ (-53 : ℤ) ∨
        |p - q * 100| ≤ (2 : ℚ) ^ (-1075 : ℤ)) := by
  rw [mul_fin] at hm
  have h1 := Int.floor_le (p + 1 / 2)
  have h2 := Int.lt_floor_add_one (p + 1 / 2)
  refine ⟨⌊p + 1 / 2⌋, toCents_round_fin q p _ hm h1 h2, ?_, toDouble_error _ _ hm⟩
  rw [abs_le]
  constructor <;> linarith

theorem exampleTxs_type (t : Transaction) (ht : t ∈ exampleTxs) :
    t.type = "income" ∨ t.type = "expense" := by
  simp only [exampleTxs, List.mem_cons, List.mem_singleton, List.not_mem_nil, or_false] at ht
  rcases ht with rfl | rfl | rfl <;> simp [sampleTx]

theorem exampleTxs_amount (t : Transaction) (ht : t ∈ exampleTxs) : t.amount ≠ .nan := by
  simp only [exampleTxs, List.mem_cons, List.mem_singleton, List.not_mem_nil, or_false] at ht
  rcases ht with rfl | rfl | rfl <;> simp [sampleTx]

theorem negativeTieTxs_type (t : Transaction) (ht : t ∈ negativeTieTxs) :
    t.type = "income" ∨ t.type = "expense" := by
  simp only [negativeTieTxs, List.mem_singleton] at ht
  subst ht
  simp [sampleTx]

theorem negativeTieTxs_amount (t : Transaction) (ht : t ∈ negativeTieTxs) :
    t.amount ≠ .nan := by
  simp only [negativeTieTxs, List.mem_singleton] at ht
  subst ht
  simp [sampleTx]

theorem roundHalfAway_of_nonneg (x : ℚ) (h : 0 ≤ x) : roundHalfAway x = ⌊x + 1 / 2⌋ := by
  simp [roundHalfAway, h]

theorem roundHalfAway_of_not_tie (x : ℚ) (h : (⌊x + 1 / 2⌋ : ℚ) ≠ x + 1 / 2) :
    roundHalfAway x = ⌊x + 1 / 2⌋ := by
  unfold roundHalfAway
  split
  · rfl
  · have h1 := Int.floor_le (x + 1 / 2)
    have h2 := Int.lt_floor_add_one (x + 1 / 2)
    have h3 : (⌊x + 1 / 2⌋ : ℚ) < x + 1 / 2 := lt_of_le_of_ne h1 h
    have : ⌊-x + 1 / 2⌋ = -⌊x + 1 / 2⌋ := by
      rw [Int.floor_eq_iff]
      push_cast
      constructor <;> linarith
    rw [this, neg_neg]

/-- The sums of the example records, as doubles. -/
theorem exampleTxs_sums :
    sumOf (amountsOfType "income" exampleTxs) = .fin 100 ∧
    sumOf (amountsOfType "expense" exampleTxs)
      = .fin (7037578105208177 / 140737488355328) := by
  have ain : amountsOfType "income" exampleTxs = [.fin 100] := rfl
  have aex : amountsOfType "expense" exampleTxs
      = [.fin 40, .fin (5632314283980227 / 562949953421312)] := rfl
  constructor
  · rw [ain]
    simp only [sumOf, List.foldl_cons, List.foldl_nil, add_fin, toDouble_sum_income]
  · rw [aex]
    simp only [sumOf, List.foldl_cons, List.foldl_nil, add_fin, toDouble_sum_40,
      toDouble_sum_expense]

/-- The totals of the example records: `100`, `50.01` and `49.99` as doubles. -/
theorem exampleTxs_totals :
    (computeTotals exampleTxs).income = .fin 100 ∧
    (computeTotals exampleTxs).expense = toDouble (5001 / 100) ∧
    (computeTotals exampleTxs).balance = toDouble (4999 / 100) := by
  obtain ⟨hi, he, hb⟩ := computeTotals_eq exampleTxs exampleTxs_type exampleTxs_amount
  obtain ⟨si, se⟩ := exampleTxs_sums
  have ri : toCents JSNum.round (.fin 100) = .fin 100 := by
    rw [toCents_round_fin 100 10000 10000 toDouble_scaled_income (by norm_num) (by norm_num)]
    have : ((10000 : ℤ) : ℚ) / 100 = 10000 / 100 := by norm_num
    rw [this, toDouble_cents_income]
  have re : toCents JSNum.round (.fin (7037578105208177 / 140737488355328))
      = toDouble (5001 / 100) := by
    rw [toCents_round_fin _ (10001 / 2) 5001 toDouble_scaled_expense (by norm_num)
      (by norm_num)]
    norm_num
  have hdiff : (JSNum.fin 100).sub (toDouble (5001 / 100))
      = .fin (7035467042882847 / 140737488355328) := by
    rw [toDouble_50_01, sub_fin, toDouble_difference]
  have rb : toCents JSNum.round (.fin (7035467042882847 / 140737488355328))
      = toDouble (4999 / 100) := by
    rw [toCents_round_fin _ 4999 4999 toDouble_scaled_balance (by norm_num) (by norm_num)]
    norm_num
  rw [si] at hi
  rw [se] at he
  rw [hi, he, ri, re, hdiff, rb] at hb
  rw [hi, he, ri, re]
  exact ⟨rfl, rfl, hb⟩

/-! ## Facts about JSON -/

mutual
theorem reparse_of_isJSON : ∀ v : JSVal, isJSON v = true → reparse v = v
  | .prim p, h => by
    cases p with
    | num n => cases n <;> simp_all [reparse, isJSON, jsonNum, JSNum.isFinite]
    | undefined => simp [isJSON] at h
    | null => simp [reparse]
    | bool b => simp [reparse]
    | str s => simp [reparse]
  | .arr items, h => by
    simp only [isJSON] at h
    simp [reparse, reparseItems_of_isJSON items h]
  | .obj fields, h => by
    simp only [isJSON] at h
    simp [reparse, reparseFields_of_isJSON fields h]
theorem reparseItems_of_isJSON : ∀ l : List JSVal, isJSONItems l = true → reparseItems l = l
  | [], _ => rfl
  | v :: rest, h => by
    simp only [isJSONItems, Bool.and_eq_true] at h
    have h1 := reparse_of_isJSON v h.1
    have h2 := reparseItems_of_isJSON rest h.2
    have hv : v ≠ .prim .undefined := by
      intro hc
      rw [hc] at h
      simp [isJSON] at h
    unfold reparseItems
    split
    · exact absurd rfl hv
    · rw [h1, h2]
theorem reparseFields_of_isJSON :
    ∀ l : List (String × JSVal), isJSONFields l = true → reparseFields l = l
  | [], _ => rfl
  | (k, v) :: rest, h => by
    simp only [isJSONFields, Bool.and_eq_true] at h
    have h1 := reparse_of_isJSON v h.1
    have h2 := reparseFields_of_isJSON rest h.2
    have hv : v ≠ .prim .undefined := by
      intro hc
      rw [hc] at h
      simp [isJSON] at h
    unfold reparseFields
    split
    · exact absurd rfl hv
    · rw [h1, h2]
end

theorem jsonField_of_isJSON (key : String) (v : JSVal) (h : isJSON v = true) :
    jsonField key v = [(key, v)] := by
  have hv : v ≠ .prim .undefined := by
    intro hc
    rw [hc] at h
    simp [isJSON] at h
  unfold jsonField
  split
  · exact absurd rfl hv
  · rw [reparse_of_isJSON v h]

theorem lookupField_isParsed (key : String) (fields : List (String × JSVal))
    (h : isParsedFields fields = true) (x : JSVal) (hx : lookupField key fields = some x) :
    isParsed x = true := by
  induction fields with
  | nil => simp [lookupField] at hx
  | cons kv rest ih =>
    obtain ⟨k, v⟩ := kv
    simp only [isParsedFields, Bool.and_eq_true] at h
    by_cases hk : k = key
    · simp only [lookupField, hk, if_true, Option.some.injEq] at hx
      rw [← hx]
      exact h.1
    · simp only [lookupField, hk, if_false] at hx
      exact ih h.2 hx

theorem fieldOf_isParsed (key : String) (v : JSVal) (h : isParsed v = true) :
    fieldOf key v = JSVal.undef ∨ isParsed (fieldOf key v) = true := by
  cases v with
  | prim p => exact Or.inl rfl
  | arr items => exact Or.inl rfl
  | obj fields =>
    simp only [isParsed] at h
    cases hl : lookupField key fields with
    | none => exact Or.inl (by simp [fieldOf, hl])
    | some x =>
      exact Or.inr (by simpa [fieldOf, hl] using lookupField_isParsed key fields h x hl)

theorem isParsedItems_mem (items : List JSVal) (h : isParsedItems items = true) (v : JSVal)
    (hv : v ∈ items) : isParsed v = true := by
  induction items with
  | nil => simp at hv
  | cons a rest ih =>
    simp only [isParsedItems, Bool.and_eq_true] at h
    rcases List.mem_cons.mp hv with rfl | hv
    · exact h.1
    · exact ih h.2 hv

mutual
theorem isJSON_of_parsed_finite :
    ∀ v : JSVal, isParsed v = true → finiteNumbers v = true → isJSON v = true
  | .prim p, hp, hf => by
    cases p with
    | num n => cases n <;> simp_all [isParsed, finiteNumbers, isJSON, JSNum.isFinite]
    | undefined => simp [isParsed] at hp
    | null => simp [isJSON]
    | bool b => simp [isJSON]
    | str s => simp [isJSON]
  | .arr items, hp, hf => by
    simp only [isParsed] at hp
    simp only [finiteNumbers] at hf
    simp only [isJSON]
    exact isJSONItems_of_parsed_finite items hp hf
  | .obj fields, hp, hf => by
    simp only [isParsed] at hp
    simp only [finiteNumbers] at hf
    simp only [isJSON]
    exact isJSONFields_of_parsed_finite fields hp hf
theorem isJSONItems_of_parsed_finite :
    ∀ l : List JSVal, isParsedItems l = true → finiteNumbersItems l = true →
      isJSONItems l = true
  | [], _, _ => rfl
  | v :: rest, hp, hf => by
    simp only [isParsedItems, Bool.and_eq_true] at hp
    simp only [finiteNumbersItems, Bool.and_eq_true] at hf
    simp only [isJSONItems, Bool.and_eq_true]
    exact ⟨isJSON_of_parsed_finite v hp.1 hf.1, isJSONItems_of_parsed_finite rest hp.2 hf.2⟩
theorem isJSONFields_of_parsed_finite :
    ∀ l : List (String × JSVal), isParsedFields l = true → finiteNumbersFields l = true →
      isJSONFields l = true
  | [], _, _ => rfl
  | (k, v) :: rest, hp, hf => by
    simp only [isParsedFields, Bool.and_eq_true] at hp
    simp only [finiteNumbersFields, Bool.and_eq_true] at hf
    simp only [isJSONFields, Bool.and_eq_true]
    exact ⟨isJSON_of_parsed_finite v hp.1 hf.1, isJSONFields_of_parsed_finite rest hp.2 hf.2⟩
end

/-! ## Facts about `normalize` -/

theorem orZero_eq_ite (n : JSNum) :
    n.orZero = if n = .nan ∨ n = .fin 0 then .fin 0 else n := by
  cases n with
  | nan => simp [JSNum.orZero, JSNum.isFalsy]
  | posInf => simp [JSNum.orZero, JSNum.isFalsy]
  | negInf => simp [JSNum.orZero, JSNum.isFalsy]
  | fin q => by_cases hq : q = 0 <;> simp [JSNum.orZero, JSNum.isFalsy, hq]

theorem strictEqPrim_str (v : JSVal) (s : String) :
    v.strictEqPrim (.str s) = true ↔ v = JSVal.str s := by
  cases v with
  | prim p => cases p <;> simp [JSVal.strictEqPrim, JSPrim.strictEq, JSVal.str]
  | arr items => simp [JSVal.strictEqPrim, JSVal.str]
  | obj fields => simp [JSVal.strictEqPrim, JSVal.str]

theorem normalize_obj (fmt : ℚ → String) (now : String) (fields : List (String × JSVal))
    (name : String) (amount : JSNum)
    (hn : ((fieldOf "name" (.obj fields)).or (JSVal.str "")).toStr fmt = some name)
    (ha : (fieldOf "amount" (.obj fields)).toNumber fmt = some amount) :
    normalize fmt now (.obj fields) = some
      { id := fieldOf "id" (.obj fields)
        name := name
        amount := amount.orZero
        type := if (fieldOf "type" (.obj fields)).strictEqPrim (.str "expense")
                then "expense" else "income"
        dateISO := (fieldOf "dateISO" (.obj fields)).or (JSVal.str now) } := by
  simp only [fieldOf] at hn ha
  simp [normalize, getProp, fieldOf, hn, ha]

theorem not_hasToString (fields : List (String × JSVal))
    (h : convertible (.obj fields) = true) : lookupField "toString" fields = none := by
  simp only [convertible] at h
  cases hl : lookupField "toString" fields with
  | none => rfl
  | some x => simp [hl] at h

theorem joinItems_of_convertible (fmt : ℚ → String) :
    ∀ l : List JSVal, convertibleItems l = true → ∃ r, JSVal.joinItems fmt l = some r
  | [], _ => ⟨"", by simp [JSVal.joinItems]⟩
  | .prim p :: rest, h => by
    simp only [convertibleItems, Bool.and_eq_true] at h
    obtain ⟨b, hb⟩ := joinItems_of_convertible fmt rest h.2
    exact ⟨_, by simp only [JSVal.joinItems, hb, joinStep]; rfl⟩
  | .arr items :: rest, h => by
    simp only [convertibleItems, convertible, Bool.and_eq_true] at h
    obtain ⟨a, ha⟩ := joinItems_of_convertible fmt items h.1
    obtain ⟨b, hb⟩ := joinItems_of_convertible fmt rest h.2
    exact ⟨_, by simp only [JSVal.joinItems, ha, hb, joinStep]; rfl⟩
  | .obj fields :: rest, h => by
    simp only [convertibleItems, Bool.and_eq_true] at h
    obtain ⟨b, hb⟩ := joinItems_of_convertible fmt rest h.2
    have hn := not_hasToString fields h.1
    exact ⟨_, by simp only [JSVal.joinItems, JSVal.toStr, hn, hb, joinStep, Option.isSome_none,
      Bool.false_eq_true, if_false]; rfl⟩

theorem toStr_of_convertible (fmt : ℚ → String) (v : JSVal) (h : convertible v = true) :
    ∃ r, JSVal.toStr fmt v = some r := by
  cases v with
  | prim p => exact ⟨p.toStr fmt, by simp [JSVal.toStr]⟩
  | arr items =>
    simp only [convertible] at h
    obtain ⟨r, hr⟩ := joinItems_of_convertible fmt items h
    exact ⟨r, by simp [JSVal.toStr, hr]⟩
  | obj fields =>
    exact ⟨"[object Object]", by simp [JSVal.toStr, not_hasToString fields h]⟩

theorem toNumber_of_convertible (fmt : ℚ → String) (v : JSVal) (h : convertible v = true) :
    ∃ n, JSVal.toNumber fmt v = some n := by
  cases v with
  | prim p => exact ⟨p.toNumber, by simp [JSVal.toNumber]⟩
  | arr items =>
    simp only [convertible] at h
    obtain ⟨r, hr⟩ := joinItems_of_convertible fmt items h
    exact ⟨stringToNumber r, by simp [JSVal.toNumber, hr]⟩
  | obj fields =>
    exact ⟨.nan, by simp [JSVal.toNumber, not_hasToString fields h]⟩

theorem record_name_converts (fmt : ℚ → String) (v : JSVal)
    (h : convertible (fieldOf "name" v) = true) :
    ∃ r, ((fieldOf "name" v).or (JSVal.str "")).toStr fmt = some r := by
  unfold JSVal.or
  split
  · exact ⟨"", rfl⟩
  · exact toStr_of_convertible fmt _ h

/-- On a stored record `normalize` does not throw, and each field of its result is
determined by the same field of the record. -/
theorem normalize_record (fmt : ℚ → String) (now : String) (v : JSVal)
    (h : isRecord v = true) :
    ∃ t, normalize fmt now v = some t ∧
      t.id = fieldOf "id" v ∧
      some t.name = ((fieldOf "name" v).or (JSVal.str "")).toStr fmt ∧
      (∃ n, (fieldOf "amount" v).toNumber fmt = some n ∧
        t.amount = if n = .nan ∨ n = .fin 0 then .fin 0 else n) ∧
      t.type = (if (fieldOf "type" v).strictEqPrim (.str "expense") then "expense"
                else "income") ∧
      t.dateISO = (if (fieldOf "dateISO" v).isFalsy then JSVal.str now
                   else fieldOf "dateISO" v) := by
  cases v with
  | prim p => simp [isRecord] at h
  | arr items => simp [isRecord] at h
  | obj fields =>
    simp only [isRecord, Bool.and_eq_true] at h
    obtain ⟨r, hn⟩ := record_name_converts fmt (.obj fields) h.1
    obtain ⟨n, ha⟩ := toNumber_of_convertible fmt _ h.2
    exact ⟨_, normalize_obj fmt now fields _ _ hn ha, rfl, hn.symm,
      ⟨n, ha, orZero_eq_ite _⟩, rfl, rfl⟩

theorem normalizeAll_records (fmt : ℚ → String) (clock : Nat → String) (items : List JSVal)
    (h : ∀ v ∈ items, isRecord v = true) (i : Nat) :
    ∃ txs, normalizeAll fmt clock i items = some txs ∧ txs.length = items.length ∧
      ∀ j, j < items.length →
        ∃ v t, items[j]? = some v ∧ txs[j]? = some t ∧
          normalize fmt (clock (i + j)) v = some t := by
  induction items generalizing i with
  | nil => exact ⟨[], rfl, rfl, fun j hj => absurd hj (by simp)⟩
  | cons v rest ih =>
    obtain ⟨t, ht, _⟩ := normalize_record fmt (clock i) v (h v (List.mem_cons_self _ _))
    obtain ⟨txs, htxs, hlen, hget⟩ :=
      ih (fun u hu => h u (List.mem_cons_of_mem _ hu)) (i + 1)
    refine ⟨t :: txs, by simp [normalizeAll, ht, htxs], by simp [hlen], ?_⟩
    intro j hj
    cases j with
    | zero => exact ⟨v, t, by simp, by simp, by simpa using ht⟩
    | succ j =>
      obtain ⟨u, tu, hu, htu, hnu⟩ := hget j (by simpa using hj)
      refine ⟨u, tu, by simpa using hu, by simpa using htu, ?_⟩
      rw [show i + (j + 1) = i + 1 + j by omega]
      exact hnu

theorem joinItems_of_not_convertible (fmt : ℚ → String) :
    ∀ l : List JSVal, convertibleItems l = false → JSVal.joinItems fmt l = none
  | [], h => by simp [convertibleItems] at h
  | .prim p :: rest, h => by
    have hr : convertibleItems rest = false := by
      simpa [convertibleItems, convertible] using h
    simp only [JSVal.joinItems, joinItems_of_not_convertible fmt rest hr, joinStep]
  | .arr items :: rest, h => by
    simp only [convertibleItems, convertible, Bool.and_eq_false_iff] at h
    rcases h with h | h
    · simp only [JSVal.joinItems, joinItems_of_not_convertible fmt items h, joinStep]
    · simp only [JSVal.joinItems, joinItems_of_not_convertible fmt rest h]
      cases JSVal.joinItems fmt items <;> rfl
  | .obj fields :: rest, h => by
    simp only [convertibleItems, Bool.and_eq_false_iff] at h
    rcases h with h | h
    · have hk : (lookupField "toString" fields).isSome = true := by
        simpa [convertible] using h
      simp only [JSVal.joinItems, JSVal.toStr, hk, if_true, joinStep]
    · simp only [JSVal.joinItems, joinItems_of_not_convertible fmt rest h]
      cases JSVal.toStr fmt (.obj fields) <;> rfl

theorem toStr_of_not_convertible (fmt : ℚ → String) (v : JSVal)
    (h : convertible v = false) : JSVal.toStr fmt v = none := by
  cases v with
  | prim p => simp [convertible] at h
  | arr items =>
    simp only [convertible] at h
    simp [JSVal.toStr, joinItems_of_not_convertible fmt items h]
  | obj fields =>
    have hk : (lookupField "toString" fields).isSome = true := by
      simpa [convertible] using h
    simp [JSVal.toStr, hk]

theorem toNumber_of_not_convertible (fmt : ℚ → String) (v : JSVal)
    (h : convertible v = false) : JSVal.toNumber fmt v = none := by
  cases v with
  | prim p => simp [convertible] at h
  | arr items =>
    simp only [convertible] at h
    simp [JSVal.toNumber, joinItems_of_not_convertible fmt items h]
  | obj fields =>
    have hk : (lookupField "toString" fields).isSome = true := by
      simpa [convertible] using h
    simp [JSVal.toNumber, hk]

theorem isFalsy_convertible (v : JSVal) (h : v.isFalsy = true) : convertible v = true := by
  cases v with
  | prim p => rfl
  | arr items => simp [JSVal.isFalsy] at h
  | obj fields => simp [JSVal.isFalsy] at h

/-- On a stored object that is not a record, the callback throws. -/
theorem normalize_not_record (fmt : ℚ → String) (now : String) (fields : List (String × JSVal))
    (h : isRecord (.obj fields) = false) : normalize fmt now (.obj fields) = none := by
  simp only [isRecord, Bool.and_eq_false_iff] at h
  rcases h with h | h
  · have hname : ((fieldOf "name" (.obj fields)).or (JSVal.str "")).toStr fmt = none := by
      have hnf : (fieldOf "name" (.obj fields)).isFalsy = false := by
        cases hf : (fieldOf "name" (.obj fields)).isFalsy with
        | false => rfl
        | true => rw [isFalsy_convertible _ hf] at h; exact absurd h (by simp)
      simp only [JSVal.or, hnf]
      exact toStr_of_not_convertible fmt _ h
    simp only [fieldOf] at hname
    simp [normalize, getProp, hname]
  · have hamount := toNumber_of_not_convertible fmt _ h
    simp only [fieldOf] at hamount
    simp only [normalize, getProp, Option.bind_eq_bind, Option.pure_def, Option.some_bind,
      hamount, Option.none_bind]
    cases ((lookupField "name" fields).getD JSVal.undef).or (JSVal.str "") |>.toStr fmt <;> rfl

/-- One throwing element makes the whole `map` throw. -/
theorem normalizeAll_throws (fmt : ℚ → String) (clock : Nat → String) (items : List JSVal)
    (v : JSVal) (hv : v ∈ items) (hthrow : ∀ now, normalize fmt now v = none) (i : Nat) :
    normalizeAll fmt clock i items = none := by
  induction items generalizing i with
  | nil => simp at hv
  | cons a rest ih =>
    simp only [normalizeAll]
    rcases List.mem_cons.mp hv with rfl | hv
    · rw [hthrow (clock i)]
    · rw [ih hv (i + 1)]
      cases normalize fmt (clock i) a <;> rfl

/-! ## Facts about `loadTransactions` -/

theorem fieldOf_of_getProp (v : JSVal) (key : String) (x : JSVal)
    (h : getProp v key = some x) : x = fieldOf key v := by
  cases v with
  | prim p => cases p <;> simp_all [getProp, fieldOf]
  | arr items => simp_all [getProp, fieldOf]
  | obj fields => simp_all [getProp, fieldOf]

theorem normalize_id (fmt : ℚ → String) (now : String) (v : JSVal) (t : Transaction)
    (h : normalize fmt now v = some t) : t.id = fieldOf "id" v := by
  simp only [normalize, Option.bind_eq_bind, Option.pure_def, Option.bind_eq_some] at h
  obtain ⟨id, hid, _, _, _, _, _, _, _, _, _, _, _, _, ht⟩ := h
  rw [← Option.some.inj ht]
  exact fieldOf_of_getProp v "id" id hid

theorem normalize_clock_irrelevant (fmt : ℚ → String) (a b : String) (v : JSVal)
    (h : (fieldOf "dateISO" v).isFalsy = false) :
    normalize fmt a v = normalize fmt b v := by
  cases v with
  | prim p => simp [fieldOf, JSVal.undef, JSVal.isFalsy, JSPrim.isFalsy] at h
  | arr items => simp [fieldOf, JSVal.undef, JSVal.isFalsy, JSPrim.isFalsy] at h
  | obj fields =>
    simp only [fieldOf] at h
    simp [normalize, getProp, JSVal.or, h]

theorem normalizeAll_clock_irrelevant (fmt : ℚ → String) (c₁ c₂ : Nat → String)
    (items : List JSVal) (h : ∀ v ∈ items, (fieldOf "dateISO" v).isFalsy = false) (i : Nat) :
    normalizeAll fmt c₁ i items = normalizeAll fmt c₂ i items := by
  induction items generalizing i with
  | nil => rfl
  | cons v rest ih =>
    simp only [normalizeAll]
    rw [normalize_clock_irrelevant fmt (c₁ i) (c₂ i) v (h v (List.mem_cons_self _ _)),
      ih (fun u hu => h u (List.mem_cons_of_mem _ hu)) (i + 1)]

theorem normalizeAll_ids (fmt : ℚ → String) (clock : Nat → String) (items : List JSVal)
    (i : Nat) (txs : List Transaction) (h : normalizeAll fmt clock i items = some txs) :
    txs.map (fun t => t.id) = items.map (fieldOf "id") := by
  induction items generalizing i txs with
  | nil =>
    simp only [normalizeAll, Option.some.injEq] at h
    subst h
    rfl
  | cons v rest ih =>
    simp only [normalizeAll] at h
    cases hv : normalize fmt (clock i) v with
    | none => simp [hv] at h
    | some t =>
      cases hr : normalizeAll fmt clock (i + 1) rest with
      | none => simp [hv, hr] at h
      | some ts =>
        simp only [hv, hr, Option.some.injEq] at h
        subst h
        simp [normalize_id fmt (clock i) v t hv, ih (i + 1) ts hr]

/-- The list `loadTransactions` leaves in memory, by the shape of the stored item. -/
theorem loadTransactions_transactions (fmt : ℚ → String) (clock : Nat → String) (s : Store) :
    (loadTransactions fmt clock s).transactions =
      match s.blob with
      | .json (.arr items) => (normalizeAll fmt clock 0 items).getD []
      | _ => [] := by
  obtain ⟨txs, blob⟩ := s
  cases blob with
  | missing => rfl
  | empty => rfl
  | garbage raw => rfl
  | json v =>
    cases v with
    | prim p => rfl
    | obj fields => rfl
    | arr items =>
      simp only [loadTransactions]
      cases normalizeAll fmt clock 0 items <;> rfl

/-- The stored item `loadTransactions` leaves behind. -/
theorem loadTransactions_blob (fmt : ℚ → String) (clock : Nat → String) (s : Store) :
    (loadTransactions fmt clock s).blob =
      match s.blob with
      | .missing => .json (.arr [])
      | .empty => .json (.arr [])
      | b => b := by
  obtain ⟨txs, blob⟩ := s
  cases blob with
  | missing => rfl
  | empty => rfl
  | garbage raw => rfl
  | json v =>
    cases v with
    | prim p => rfl
    | obj fields => rfl
    | arr items =>
      simp only [loadTransactions]
      cases normalizeAll fmt clock 0 items <;> rfl

/-! ## Facts about the round trip -/

theorem normalize_fields (fmt : ℚ → String) (now : String) (v : JSVal) (t : Transaction)
    (h : normalize fmt now v = some t) :
    t.id = fieldOf "id" v ∧
    (t.type = "income" ∨ t.type = "expense") ∧
    t.dateISO = (fieldOf "dateISO" v).or (JSVal.str now) := by
  simp only [normalize, Option.bind_eq_bind, Option.pure_def, Option.bind_eq_some] at h
  obtain ⟨id, hid, _, _, _, _, _, _, _, _, ty, _, d, hd, ht⟩ := h
  rw [← Option.some.inj ht]
  refine ⟨fieldOf_of_getProp v "id" id hid, ?_, ?_⟩
  · by_cases hc : ty.strictEqPrim (.str "expense") = true <;> simp [hc]
  · simp only
    rw [fieldOf_of_getProp v "dateISO" d hd]

theorem normalize_wellFormed (fmt : ℚ → String) (now : String) (hnow : now ≠ "") (v : JSVal)
    (hv : isParsed v = true) (t : Transaction) (h : normalize fmt now v = some t) :
    WellFormed t := by
  obtain ⟨hid, hty, hdate⟩ := normalize_fields fmt now v t h
  have hd := fieldOf_isParsed "dateISO" v hv
  have hstr : isParsed (JSVal.str now) = true := rfl
  have hfal : (JSVal.str now).isFalsy = false := by
    simp [JSVal.str, JSVal.isFalsy, JSPrim.isFalsy, hnow]
  refine ⟨by rw [hid]; exact fieldOf_isParsed "id" v hv, hty, ?_, ?_⟩
  · rw [hdate]
    unfold JSVal.or
    split
    · exact hstr
    · rcases hd with hd | hd
      · rename_i hf
        rw [hd] at hf
        exact absurd rfl hf
      · exact hd
  · rw [hdate]
    unfold JSVal.or
    split
    · exact hfal
    · rename_i hf
      simpa using hf

theorem normalizeAll_mem (fmt : ℚ → String) (clock : Nat → String) (items : List JSVal)
    (i : Nat) (txs : List Transaction) (h : normalizeAll fmt clock i items = some txs)
    (t : Transaction) (ht : t ∈ txs) :
    ∃ v ∈ items, ∃ j, normalize fmt (clock j) v = some t := by
  induction items generalizing i txs with
  | nil =>
    simp only [normalizeAll, Option.some.injEq] at h
    subst h
    simp at ht
  | cons v rest ih =>
    simp only [normalizeAll] at h
    cases hv : normalize fmt (clock i) v with
    | none => simp [hv] at h
    | some a =>
      cases hr : normalizeAll fmt clock (i + 1) rest with
      | none => simp [hv, hr] at h
      | some ts =>
        simp only [hv, hr, Option.some.injEq] at h
        subst h
        rcases List.mem_cons.mp ht with rfl | ht
        · exact ⟨v, List.mem_cons_self _ _, i, hv⟩
        · obtain ⟨u, hu, j, hj⟩ := ih (i + 1) ts hr ht
          exact ⟨u, List.mem_cons_of_mem _ hu, j, hj⟩

theorem loadTransactions_wellFormed (fmt : ℚ → String) (clock : Nat → String)
    (hclock : ∀ i, clock i ≠ "") (s : Store) (hs : validStored s.blob = true)
    (t : Transaction) (ht : t ∈ (loadTransactions fmt clock s).transactions) :
    WellFormed t := by
  rw [loadTransactions_transactions] at ht
  obtain ⟨txs, blob⟩ := s
  cases blob with
  | missing => simp at ht
  | empty => simp at ht
  | garbage raw => simp at ht
  | json v =>
    cases v with
    | prim p => simp at ht
    | obj fields => simp at ht
    | arr items =>
      simp only [validStored, isParsed] at hs
      simp only at ht
      cases hn : normalizeAll fmt clock 0 items with
      | none => simp [hn] at ht
      | some l =>
        simp only [hn, Option.getD_some] at ht
        obtain ⟨u, hu, j, hj⟩ := normalizeAll_mem fmt clock items 0 l hn t ht
        exact normalize_wellFormed fmt (clock j) (hclock j) u
          (isParsedItems_mem items hs u hu) t hj

theorem newTransaction_some (fmt : ℚ → String) (now : Int) (rnd : ℚ) (iso : String)
    (name amount type : JSArg) (tx : Transaction)
    (h : newTransaction fmt now rnd iso name amount type = some tx) :
    ∃ nameStr n, name.toStr fmt = some nameStr ∧ amount.toNumber fmt = some n ∧
      tx = { id := JSVal.str (newId now rnd)
             name := jsTrim nameStr
             amount := n.orZero
             type := if type.isString "expense" then "expense" else "income"
             dateISO := JSVal.str iso } := by
  simp only [newTransaction, Option.bind_eq_bind, Option.pure_def, Option.bind_eq_some] at h
  obtain ⟨nameStr, hn, n, ha, ht⟩ := h
  exact ⟨nameStr, n, hn, ha, (Option.some.inj ht).symm⟩

theorem addTransaction_some (fmt : ℚ → String) (now : Int) (rnd : ℚ) (iso : String)
    (name amount type : JSArg) (s s' : Store)
    (h : addTransaction fmt now rnd iso name amount type s = some s') :
    ∃ tx, newTransaction fmt now rnd iso name amount type = some tx ∧
      s' = saveTransactions { s with transactions := tx :: s.transactions } := by
  unfold addTransaction at h
  cases hn : newTransaction fmt now rnd iso name amount type with
  | none => simp [hn] at h
  | some tx =>
    simp only [hn, Option.some.injEq] at h
    exact ⟨tx, rfl, h.symm⟩

theorem newTransaction_wellFormed (fmt : ℚ → String) (now : Int) (rnd : ℚ) (iso : String)
    (hiso : iso ≠ "") (name amount type : JSArg) (tx : Transaction)
    (h : newTransaction fmt now rnd iso name amount type = some tx) : WellFormed tx := by
  obtain ⟨nameStr, n, _, _, rfl⟩ := newTransaction_some fmt now rnd iso name amount type tx h
  refine ⟨Or.inr rfl, ?_, rfl, ?_⟩
  · by_cases hc : type.isString "expense" = true <;> simp [hc]
  · simp [JSVal.str, JSVal.isFalsy, JSPrim.isFalsy, hiso]

theorem deleteTransaction_subset (id : JSPrim) (s : Store) (t : Transaction)
    (ht : t ∈ (deleteTransaction id s).transactions) : t ∈ s.transactions := by
  unfold deleteTransaction at ht
  cases hf : findIndex id s.transactions with
  | none => simpa [hf] using ht
  | some i =>
    simp only [hf, saveTransactions] at ht
    exact List.eraseIdx_subset _ _ ht

theorem clearAll_subset (confirmed : Bool) (s : Store) (t : Transaction)
    (ht : t ∈ (clearAll confirmed s).transactions) : t ∈ s.transactions := by
  cases confirmed with
  | false => simpa [clearAll] using ht
  | true => simp [clearAll, saveTransactions] at ht

/-- Every record of a reachable state is well formed. -/
theorem reachable_wellFormed (fmt : ℚ → String) (s : Store) (h : Reachable fmt s) :
    ∀ t ∈ s.transactions, WellFormed t := by
  induction h with
  | load blob clock hb hc =>
    intro t ht
    exact loadTransactions_wellFormed fmt clock hc ⟨[], blob⟩ hb t ht
  | add s s' now rnd iso name amount type _ hiso hadd ih =>
    intro t ht
    obtain ⟨tx, htx, rfl⟩ := addTransaction_some fmt now rnd iso name amount type s s' hadd
    have hl : (saveTransactions { s with transactions := tx :: s.transactions }).transactions
        = tx :: s.transactions := rfl
    rw [hl] at ht
    rcases List.mem_cons.mp ht with rfl | ht
    · exact newTransaction_wellFormed fmt now rnd iso hiso name amount type _ htx
    · exact ih t ht
  | delete s id _ ih =>
    intro t ht
    exact ih t (deleteTransaction_subset id s t ht)
  | clear s confirmed _ ih =>
    intro t ht
    exact ih t (clearAll_subset confirmed s t ht)

/-- A well-formed record without an infinite number is storable. -/
theorem storable_of_wellFormed (t : Transaction) (hw : WellFormed t)
    (hf : finiteRecord t = true) : Storable t := by
  simp only [finiteRecord, Bool.and_eq_true] at hf
  obtain ⟨⟨ha, hi⟩, hd⟩ := hf
  refine ⟨?_, hw.type, isJSON_of_parsed_finite _ hw.date hd, hw.dated, ha⟩
  rcases hw.id with h | h
  · exact Or.inl h
  · exact Or.inr (isJSON_of_parsed_finite _ h hi)

theorem orZero_fin (q : ℚ) : (JSNum.fin q).orZero = .fin q := by
  by_cases hq : q = 0 <;> simp [JSNum.orZero, JSNum.isFalsy, hq]

theorem name_roundtrip (fmt : ℚ → String) (name : String) :
    ((JSVal.str name).or (JSVal.str "")).toStr fmt = some name := by
  by_cases hn : name = ""
  · subst hn
    rfl
  · simp [JSVal.or, JSVal.str, JSVal.isFalsy, JSPrim.isFalsy, hn, JSVal.toStr, JSPrim.toStr]

theorem type_roundtrip (ty : String) (h : ty = "income" ∨ ty = "expense") :
    (if (JSVal.str ty).strictEqPrim (.str "expense") then "expense" else "income") = ty := by
  rcases h with rfl | rfl <;> rfl

theorem normalize_fields_list (fmt : ℚ → String) (now : String)
    (pre : List (String × JSVal)) (hpre : pre = [] ∨ ∃ x, pre = [("id", x)])
    (name : String) (q : ℚ) (ty : String) (hty : ty = "income" ∨ ty = "expense")
    (d : JSVal) (hd : d.isFalsy = false) :
    normalize fmt now (.obj (pre ++ [("name", JSVal.str name),
        ("amount", .prim (jsonNum (.fin q))), ("type", JSVal.str ty)] ++ [("dateISO", d)]))
      = some { id := (lookupField "id" pre).getD JSVal.undef
               name := name
               amount := .fin q
               type := ty
               dateISO := d } := by
  have hn := name_roundtrip fmt name
  have ht := type_roundtrip ty hty
  rcases hpre with rfl | ⟨x, rfl⟩
  · rw [normalize_obj fmt now _ name (.fin q)
      (by simpa [fieldOf, lookupField] using hn)
      (by simp [fieldOf, lookupField, jsonNum, JSVal.toNumber, JSPrim.toNumber])]
    simp [fieldOf, lookupField, orZero_fin, ht, JSVal.or, hd]
  · rw [normalize_obj fmt now _ name (.fin q)
      (by simpa [fieldOf, lookupField] using hn)
      (by simp [fieldOf, lookupField, jsonNum, JSVal.toNumber, JSPrim.toNumber])]
    simp [fieldOf, lookupField, orZero_fin, ht, JSVal.or, hd]

/-- A storable record is read back unchanged. -/
theorem normalize_encodeTx (fmt : ℚ → String) (now : String) (t : Transaction)
    (hs : Storable t) : normalize fmt now (encodeTx t) = some t := by
  obtain ⟨id, name, amount, ty, d⟩ := t
  obtain ⟨hid, hty, hdate, hdated, hfin⟩ := hs
  simp only at hid hty hdate hdated hfin
  cases amount with
  | nan => simp [JSNum.isFinite] at hfin
  | posInf => simp [JSNum.isFinite] at hfin
  | negInf => simp [JSNum.isFinite] at hfin
  | fin q =>
    simp only [encodeTx, jsonField_of_isJSON "dateISO" d hdate]
    rcases hid with hid | hid
    · subst hid
      have hpre : jsonField "id" JSVal.undef = [] := rfl
      rw [hpre, normalize_fields_list fmt now [] (Or.inl rfl) name q ty hty d hdated]
      rfl
    · rw [jsonField_of_isJSON "id" id hid,
        normalize_fields_list fmt now [("id", id)] (Or.inr ⟨id, rfl⟩) name q ty hty d hdated]
      simp [lookupField]

theorem normalizeAll_encode (fmt : ℚ → String) (clock : Nat → String)
    (txs : List Transaction) (hs : ∀ t ∈ txs, Storable t) (i : Nat) :
    normalizeAll fmt clock i (txs.map encodeTx) = some txs := by
  induction txs generalizing i with
  | nil => rfl
  | cons t rest ih =>
    simp only [List.map_cons, normalizeAll]
    rw [normalize_encodeTx fmt (clock i) t (hs t (List.mem_cons_self _ _)),
      ih (fun u hu => hs u (List.mem_cons_of_mem _ hu)) (i + 1)]

/-- Reading back what `saveTransactions` wrote from storable records gives the same
list, whatever the list in memory was. -/
theorem load_encode (fmt : ℚ → String) (clock : Nat → String) (old txs : List Transaction)
    (hs : ∀ t ∈ txs, Storable t) :
    (loadTransactions fmt clock ⟨old, .json (encode txs)⟩).transactions = txs := by
  rw [loadTransactions_transactions]
  simp only [encode]
  rw [normalizeAll_encode fmt clock txs hs 0]
  rfl

/-! ## Facts about `trim` -/

theorem head?_dropWhile_false (p : Char → Bool) (l : List Char) (c : Char)
    (h : (l.dropWhile p).head? = some c) : p c = false := by
  have := List.head?_dropWhile_not p l
  rw [h] at this
  simpa using this

/-- What `trim` does: it removes a run of white space at each end, and what is left
neither starts nor ends with white space. -/
theorem trimChars_spec (cs : List Char) :
    ∃ pre post, cs = pre ++ trimChars cs ++ post ∧
      (∀ c ∈ pre, isJSSpace c = true) ∧ (∀ c ∈ post, isJSSpace c = true) ∧
      (∀ c, (trimChars cs).head? = some c → isJSSpace c = false) ∧
      (∀ c, (trimChars cs).getLast? = some c → isJSSpace c = false) := by
  have h1 := List.takeWhile_append_dropWhile isJSSpace cs
  have h2 := List.takeWhile_append_dropWhile isJSSpace (cs.dropWhile isJSSpace).reverse
  have h3 : cs.dropWhile isJSSpace = trimChars cs
      ++ ((cs.dropWhile isJSSpace).reverse.takeWhile isJSSpace).reverse := by
    have := congrArg List.reverse h2
    rw [List.reverse_append, List.reverse_reverse] at this
    exact this.symm
  have hlast : ∀ c, (trimChars cs).getLast? = some c → isJSSpace c = false := by
    intro c hc
    unfold trimChars at hc
    rw [List.getLast?_reverse] at hc
    exact head?_dropWhile_false isJSSpace _ c hc
  refine ⟨cs.takeWhile isJSSpace,
    ((cs.dropWhile isJSSpace).reverse.takeWhile isJSSpace).reverse, ?_, ?_, ?_, ?_, hlast⟩
  · rw [List.append_assoc, ← h3, h1]
  · intro c hc
    exact List.mem_takeWhile_imp hc
  · intro c hc
    exact List.mem_takeWhile_imp (List.mem_reverse.mp hc)
  · intro c hc
    cases ht : trimChars cs with
    | nil => simp [ht] at hc
    | cons a rest =>
      rw [ht] at hc h3
      have hca : a = c := by simpa using hc
      subst hca
      apply head?_dropWhile_false isJSSpace cs a
      rw [h3]
      rfl

/-! ## Claims -/

/-- C1, as stated, fails: with a symbol as amount, `Number(amount)` throws while the
record is being built, before `unshift`, so the list stays as it was. -/
theorem addTransaction_symbol_throws :
    addTransaction fmtInt 1700000000000 (1 / 2) "2023-11-14T22:13:20.000Z"
        (.str "coffee") (.symbol none) (.str "expense") threeRecordStore = none ∧
    (stateAfter threeRecordStore
        (addTransaction fmtInt 1700000000000 (1 / 2) "2023-11-14T22:13:20.000Z"
          (.str "coffee") (.symbol none) (.str "expense") threeRecordStore)).transactions
      = threeRecordStore.transactions :=
  ⟨rfl, rfl⟩

/-- C1 (amended): whenever `String(name)` and `Number(amount)` return, which they do on
every primitive, `addTransaction(name, amount, type)` leaves the list `tx :: s`: `tx` has
the trimmed `String(name)` as name, `Number(amount)` (or `0` when that is `NaN` or `0`)
as amount and `'expense'` as type exactly when `type` is the string `'expense'`
(`'income'` otherwise), it is the head, the length grew by one and the previous records
follow unchanged; when one of the two conversions throws, the call throws before the
list is touched. Trimming removes a run of white space at each end and leaves no white
space there; `Number` of a string is the double its literal denotes. -/
theorem addTransaction_prepends (fmt : ℚ → String) (now : Int) (rnd : ℚ) (iso : String)
    (name amount type : JSArg) (s : Store) :
    (∀ nameStr n, name.toStr fmt = some nameStr → amount.toNumber fmt = some n →
      ∃ tx s', addTransaction fmt now rnd iso name amount type s = some s' ∧
        s'.transactions = tx :: s.transactions ∧
        tx.name = jsTrim nameStr ∧
        tx.amount = (if n = .nan ∨ n = .fin 0 then .fin 0 else n) ∧
        (type = JSArg.str "expense" → tx.type = "expense") ∧
        (type ≠ JSArg.str "expense" → tx.type = "income") ∧
        s'.transactions.head? = some tx ∧
        s'.transactions.length = s.transactions.length + 1 ∧
        s'.transactions.tail = s.transactions) ∧
    ((name.toStr fmt = none ∨ amount.toNumber fmt = none) →
      addTransaction fmt now rnd iso name amount type s = none) ∧
    (∀ p : JSPrim, (JSArg.val (.prim p)).toStr fmt = some (p.toStr fmt) ∧
      (JSArg.val (.prim p)).toNumber fmt = some p.toNumber) ∧
    (∀ text : String, ∃ pre post, text.data = pre ++ (jsTrim text).data ++ post ∧
      (∀ c ∈ pre, isJSSpace c = true) ∧ (∀ c ∈ post, isJSSpace c = true) ∧
      (∀ c, (jsTrim text).data.head? = some c → isJSSpace c = false) ∧
      (∀ c, (jsTrim text).data.getLast? = some c → isJSSpace c = false)) ∧
    jsTrim "  Coffee \n" = "Coffee" ∧
    stringToNumber "12.5" = .fin (25 / 2) ∧
    stringToNumber " 1e3 " = .fin 1000 ∧
    stringToNumber "10.005" = .fin tenPointZeroZeroFive ∧
    stringToNumber "abc" = .nan ∧
    stringToNumber "1e400" = .posInf := by
  refine ⟨?_, ?_, ?_, ?_, by decide, ?_, ?_, ?_, by decide, ?_⟩
  · intro nameStr n hn ha
    have hnew : newTransaction fmt now rnd iso name amount type = some
        { id := JSVal.str (newId now rnd)
          name := jsTrim nameStr
          amount := n.orZero
          type := if type.isString "expense" then "expense" else "income"
          dateISO := JSVal.str iso } := by
      simp [newTransaction, hn, ha]
    refine ⟨{ id := JSVal.str (newId now rnd)
              name := jsTrim nameStr
              amount := n.orZero
              type := if type.isString "expense" then "expense" else "income"
              dateISO := JSVal.str iso },
      saveTransactions { s with transactions :=
        { id := JSVal.str (newId now rnd)
          name := jsTrim nameStr
          amount := n.orZero
          type := if type.isString "expense" then "expense" else "income"
          dateISO := JSVal.str iso } :: s.transactions },
      by simp only [addTransaction, hnew], rfl, rfl, orZero_eq_ite n, ?_, ?_, rfl, rfl, rfl⟩
    · intro ht
      subst ht
      rfl
    · intro ht
      have hfalse : type.isString "expense" = false := by
        cases type with
        | symbol d => rfl
        | val v =>
          rw [Bool.eq_false_iff]
          intro hc
          apply ht
          simp only [JSArg.isString] at hc
          rw [(strictEqPrim_str v "expense").mp hc]
          rfl
      simp [hfalse]
  · intro h
    rcases h with h | h
    · simp [addTransaction, newTransaction, h]
    · simp only [addTransaction, newTransaction, h, Option.bind_eq_bind, Option.pure_def]
      cases name.toStr fmt <;> rfl
  · intro p
    exact ⟨by simp [JSArg.toStr, JSVal.toStr], by simp [JSArg.toNumber, JSVal.toNumber]⟩
  · intro text
    exact trimChars_spec text.data
  · have h : stringToNumber "12.5" = toDouble (25 / 2) := by
      simp [stringToNumber, trimChars, isJSSpace, radixOf, readSignedDecimal,
        readUnsignedDecimal, readMantissa, readDigits, digitValue, readSignedInt, List.span,
        List.span.loop]
      norm_num
    rw [h, toDouble_12_5]
  · have h : stringToNumber " 1e3 " = toDouble (1000) := by
      simp [stringToNumber, trimChars, isJSSpace, radixOf, readSignedDecimal,
        readUnsignedDecimal, readMantissa, readDigits, digitValue, readSignedInt, List.span,
        List.span.loop]
      norm_num
    rw [h, toDouble_1000]
  · have h : stringToNumber "10.005" = toDouble (2001 / 200) := by
      simp [stringToNumber, trimChars, isJSSpace, radixOf, readSignedDecimal,
        readUnsignedDecimal, readMantissa, readDigits, digitValue, readSignedInt, List.span,
        List.span.loop]
      norm_num
    rw [h, toDouble_literal_10_005]
    rfl
  · simp [stringToNumber, trimChars, isJSSpace, radixOf, readSignedDecimal,
      readUnsignedDecimal, readMantissa, readDigits, digitValue, readSignedInt, List.span,
      List.span.loop]
    exact toDouble_overflow _ (by norm_num)

/-- Witness for the amended C1: adding `("  Coffee \n", "12.5", "expense")` to a store of
three records puts a record named `Coffee` of amount `12.5` and type `expense` in front. -/
theorem addTransaction_prepends_witness :
    ∃ tx s', addTransaction fmtInt 1700000000000 (1 / 2) "2023-11-14T22:13:20.000Z"
        (.str "  Coffee \n") (.str "12.5") (.str "expense") threeRecordStore = some s' ∧
      s'.transactions = tx :: threeRecordStore.transactions ∧
      tx.name = "Coffee" ∧ tx.amount = .fin (25 / 2) ∧ tx.type = "expense" ∧
      s'.transactions.length = 4 := by
  have h := addTransaction_prepends fmtInt 1700000000000 (1 / 2) "2023-11-14T22:13:20.000Z"
    (.str "  Coffee \n") (.str "12.5") (.str "expense") threeRecordStore
  obtain ⟨tx, s', hadd, hl, hname, hamount, hty, _, _, hlen, _⟩ :=
    h.1 "  Coffee \n" (stringToNumber "12.5") rfl rfl
  refine ⟨tx, s', hadd, hl, ?_, ?_, hty rfl, ?_⟩
  · rw [hname]
    exact h.2.2.2.2.1
  · rw [hamount, h.2.2.2.2.2.1, if_neg]
    rintro (hc | hc)
    · exact JSNum.noConfusion hc
    · injection hc with hc
      norm_num at hc
  · rw [hlen]
    rfl

/-- C2: if some record has the id, `deleteTransaction(id)` removes the first such record
and nothing else, so the length drops by exactly one and the other records keep their
order; if no record has the id, the state is left exactly as it was. -/
theorem deleteTransaction_removes_one (id : JSPrim) (s : Store) :
    ((∃ t ∈ s.transactions, t.id.strictEqPrim id = true) →
      ∃ l₁ t l₂, s.transactions = l₁ ++ t :: l₂ ∧ t.id.strictEqPrim id = true ∧
        (∀ u ∈ l₁, u.id.strictEqPrim id = false) ∧
        (deleteTransaction id s).transactions = l₁ ++ l₂ ∧
        (deleteTransaction id s).transactions.length = s.transactions.length - 1) ∧
    ((∀ t ∈ s.transactions, t.id.strictEqPrim id = false) →
      (deleteTransaction id s).transactions = s.transactions ∧ deleteTransaction id s = s) := by
  constructor
  · intro hex
    cases hf : findIndex id s.transactions with
    | none =>
      obtain ⟨t, ht, hid⟩ := hex
      have := (findIndex_eq_none id s.transactions).mp hf t ht
      simp [hid] at this
    | some i =>
      obtain ⟨l₁, t, l₂, hl, _, ht, hno, her⟩ := findIndex_eq_some id s.transactions i hf
      refine ⟨l₁, t, l₂, hl, ht, hno, ?_, ?_⟩
      · simp [deleteTransaction, hf, saveTransactions, her]
      · have h1 : (deleteTransaction id s).transactions = l₁ ++ l₂ := by
          simp [deleteTransaction, hf, saveTransactions, her]
        rw [h1, hl]
        simp
  · intro hno
    have hf := (findIndex_eq_none id s.transactions).mpr hno
    simp [deleteTransaction, hf]

/-- Witness for C2 on a two-record list: deleting id `b` keeps only the record `a`,
and deleting the absent id `z` changes nothing. -/
theorem deleteTransaction_removes_one_witness :
    (deleteTransaction (.str "b")
        ⟨[sampleTx "a" 5 "income", sampleTx "b" 7 "expense"], .missing⟩).transactions.length = 1 ∧
    deleteTransaction (.str "z")
        ⟨[sampleTx "a" 5 "income", sampleTx "b" 7 "expense"], .missing⟩
      = ⟨[sampleTx "a" 5 "income", sampleTx "b" 7 "expense"], .missing⟩ := by
  constructor
  · obtain ⟨l₁, t, l₂, _, _, _, _, hlen⟩ :=
      (deleteTransaction_removes_one (.str "b")
        ⟨[sampleTx "a" 5 "income", sampleTx "b" 7 "expense"], .missing⟩).1
        ⟨sampleTx "b" 7 "expense", by simp, by decide⟩
    simpa using hlen
  · exact ((deleteTransaction_removes_one (.str "z")
        ⟨[sampleTx "a" 5 "income", sampleTx "b" 7 "expense"], .missing⟩).2
        (by
          intro t ht
          simp only [List.mem_cons, List.mem_singleton, List.not_mem_nil, or_false] at ht
          rcases ht with rfl | rfl <;> decide)).2

/-- C4, as stated, fails: when `confirm(...)` answers no, `clearAll` leaves the list
as it was. -/
theorem clearAll_declined_keeps_list :
    (clearAll false ⟨[sampleTx "a" 5 "income"], .missing⟩).transactions ≠ [] := by
  simp [clearAll]

/-- C4 (amended): when `confirm(...)` answers yes, `clearAll` leaves the list empty and
the stored item equal to the empty sequence; when it answers no, the state is unchanged. -/
theorem clearAll_spec (s : Store) :
    (clearAll true s).transactions = [] ∧
    (clearAll true s).blob = .json (.arr []) ∧
    clearAll false s = s := by
  simp [clearAll, saveTransactions, encode]

/-- C3: on a list whose types are `'income'` or `'expense'` and whose amounts are
numbers, `computeTotals` returns as income the sum of the income amounts rounded once to
two decimal places, as expense the sum of the expense amounts rounded once, and as
balance the difference of these two rounded values rounded again. The sum is the `+` of
doubles from `0` in list order, and the rounding of a finite sum `q` returns the double
nearest to `k/100`, where the integer `k` is nearest to the double product `q * 100`,
itself within one rounding error of the exact product (so the double written `0.015`,
whose product is exactly `1.5`, gives `0.02`). The empty list gives all zeros, and the
records 100 income, 40 expense, 10.005 expense give 100, 50.01 and 49.99. -/
theorem computeTotals_sums (txs : List Transaction)
    (hty : ∀ t ∈ txs, t.type = "income" ∨ t.type = "expense")
    (hnum : ∀ t ∈ txs, t.amount ≠ .nan) :
    (computeTotals txs).income = toCents JSNum.round (sumOf (amountsOfType "income" txs)) ∧
    (computeTotals txs).expense = toCents JSNum.round (sumOf (amountsOfType "expense" txs)) ∧
    (computeTotals txs).balance =
      toCents JSNum.round ((computeTotals txs).income.sub (computeTotals txs).expense) ∧
    (∀ q p : ℚ, (JSNum.fin q).mul (.fin 100) = .fin p →
      ∃ k : ℤ, toCents JSNum.round (.fin q) = toDouble ((k : ℚ) / 100) ∧
        |(k : ℚ) - p| ≤ 1 / 2 ∧
        (|p - q * 100| ≤ |q * 100| * (2 : ℚ) ^ (-53 : ℤ) ∨
          |p - q * 100| ≤ (2 : ℚ) ^ (-1075 : ℤ))) ∧
    (computeTotals []).income = .fin 0 ∧ (computeTotals []).expense = .fin 0 ∧
    (computeTotals []).balance = .fin 0 ∧
    sumOf (amountsOfType "expense" exampleTxs) = .fin (7037578105208177 / 140737488355328) ∧
    (computeTotals exampleTxs).income = .fin 100 ∧
    (computeTotals exampleTxs).expense = toDouble (5001 / 100) ∧
    (computeTotals exampleTxs).balance = toDouble (4999 / 100) ∧
    toCents JSNum.round (.fin (1080863910568919 / 72057594037927936)) = toDouble (2 / 100) := by
  have hsmall : toCents JSNum.round (.fin (1080863910568919 / 72057594037927936))
      = toDouble (2 / 100) := by
    rw [toCents_round_fin _ (3 / 2) 2 toDouble_scaled_0_015 (by norm_num) (by norm_num)]
    norm_num
  obtain ⟨hi, he, hb⟩ := computeTotals_eq txs hty hnum
  have hempty : ∀ t ∈ ([] : List Transaction), t.type = "income" ∨ t.type = "expense" :=
    fun t ht => absurd ht (List.not_mem_nil t)
  have hempty' : ∀ t ∈ ([] : List Transaction), t.amount ≠ .nan :=
    fun t ht => absurd ht (List.not_mem_nil t)
  obtain ⟨zi, ze, zb⟩ := computeTotals_eq [] hempty hempty'
  have s0 : ∀ ty, sumOf (amountsOfType ty []) = .fin 0 := fun _ => rfl
  rw [s0, toCents_round_zero] at zi ze
  have hzero : (JSNum.fin 0).sub (.fin 0) = .fin 0 := by
    rw [sub_fin]
    norm_num
    exact toDouble_zero
  rw [zi, ze, hzero, toCents_round_zero] at zb
  exact ⟨hi, he, hb, toCents_round_spec, zi, ze, zb, exampleTxs_sums.2, exampleTxs_totals.1,
    exampleTxs_totals.2.1, exampleTxs_totals.2.2, hsmall⟩

/-- Witness for C3 on the example records of the specification. -/
theorem computeTotals_sums_witness :
    (∀ t ∈ exampleTxs, t.type = "income" ∨ t.type = "expense") ∧
    (∀ t ∈ exampleTxs, t.amount ≠ .nan) ∧
    (computeTotals exampleTxs).income
      = toCents JSNum.round (sumOf (amountsOfType "income" exampleTxs)) ∧
    (computeTotals exampleTxs).expense = toDouble (5001 / 100) :=
  ⟨exampleTxs_type, exampleTxs_amount,
    (computeTotals_sums exampleTxs exampleTxs_type exampleTxs_amount).1,
    (computeTotals_sums exampleTxs exampleTxs_type exampleTxs_amount).2.2.2.2.2.2.2.2.2.1⟩

/-- C9, as stated, fails: for one income record of amount `-0.125` the code returns the
double `-0.12`, while rounding half away from zero gives `-0.13`. -/
theorem computeTotals_not_half_away :
    (computeTotals negativeTieTxs).income = toDouble (-12 / 100) ∧
    toCents JSNum.roundHalfAway (sumOf (amountsOfType "income" negativeTieTxs))
      = toDouble (-13 / 100) ∧
    (computeTotals negativeTieTxs).income
      ≠ toCents JSNum.roundHalfAway (sumOf (amountsOfType "income" negativeTieTxs)) := by
  have hamt : amountsOfType "income" negativeTieTxs = [.fin (-1 / 8)] := rfl
  have hsum : sumOf (amountsOfType "income" negativeTieTxs) = .fin (-1 / 8) := by
    rw [hamt]
    simp only [sumOf, List.foldl_cons, List.foldl_nil, add_fin, toDouble_sum_neg_eighth]
  have hcode : (computeTotals negativeTieTxs).income = toDouble (-12 / 100) := by
    rw [(computeTotals_eq negativeTieTxs negativeTieTxs_type negativeTieTxs_amount).1, hsum,
      toCents_round_fin _ (-25 / 2) (-12) toDouble_scaled_neg_eighth (by norm_num)
        (by norm_num)]
    norm_num
  have haway : CostCalculator.roundHalfAway (-25 / 2) = -13 := by
    have hfl : ⌊-(-25 / 2 : ℚ) + 1 / 2⌋ = 13 := by
      rw [Int.floor_eq_iff]
      norm_num
    have hneg : ¬ (0 : ℚ) ≤ -25 / 2 := by norm_num
    simp only [CostCalculator.roundHalfAway, hneg, if_false, hfl]
  have hspec : toCents JSNum.roundHalfAway (sumOf (amountsOfType "income" negativeTieTxs))
      = toDouble (-13 / 100) := by
    rw [hsum]
    simp only [toCents, mul_fin, toDouble_scaled_neg_eighth, JSNum.roundHalfAway, haway,
      div_fin_hundred]
    norm_num
  refine ⟨hcode, hspec, ?_⟩
  rw [hcode, hspec, toDouble_neg_0_12, toDouble_neg_0_13]
  intro h
  injection h with h
  norm_num at h

/-- C9 (amended): on every list the store can hold, the income and expense totals are
`Math.round(S * 100) / 100` evaluated in double arithmetic on the sum `S` of the matching
amounts, the rounding being applied once to the final sum and not per term. `Math.round`
takes a tie toward `+∞`, so this is the round-half-away-from-zero value of the product
`S * 100` unless that product is finite, negative and exactly at a tie. For the example
records the result is income 100, expense 50.01 and balance 49.99; for the double
written `0.015` the product is exactly `1.5` and the result is `0.02`. -/
theorem computeTotals_rounds_half_up (txs : List Transaction)
    (hty : ∀ t ∈ txs, t.type = "income" ∨ t.type = "expense")
    (hnum : ∀ t ∈ txs, t.amount ≠ .nan) :
    (computeTotals txs).income = toCents JSNum.round (sumOf (amountsOfType "income" txs)) ∧
    (computeTotals txs).expense = toCents JSNum.round (sumOf (amountsOfType "expense" txs)) ∧
    (∀ x : JSNum,
      (∀ p : ℚ, x.mul (.fin 100) = .fin p → 0 ≤ p ∨ (⌊p + 1 / 2⌋ : ℚ) ≠ p + 1 / 2) →
      toCents JSNum.round x = toCents JSNum.roundHalfAway x) ∧
    (computeTotals exampleTxs).income = .fin 100 ∧
    (computeTotals exampleTxs).expense = toDouble (5001 / 100) ∧
    (computeTotals exampleTxs).balance = toDouble (4999 / 100) ∧
    toDouble (15 / 1000) = .fin (1080863910568919 / 72057594037927936) ∧
    toCents JSNum.round (.fin (1080863910568919 / 72057594037927936)) = toDouble (2 / 100) := by
  obtain ⟨hi, he, _⟩ := computeTotals_eq txs hty hnum
  refine ⟨hi, he, ?_, exampleTxs_totals.1, exampleTxs_totals.2.1, exampleTxs_totals.2.2,
    toDouble_literal_0_015, ?_⟩
  · intro x hx
    simp only [toCents]
    cases hm : x.mul (.fin 100) with
    | nan => rfl
    | posInf => rfl
    | negInf => rfl
    | fin p =>
      simp only [JSNum.round, JSNum.roundHalfAway]
      rcases hx p hm with h | h
      · rw [roundHalfAway_of_nonneg _ h]
      · rw [roundHalfAway_of_not_tie _ h]
  · rw [toCents_round_fin _ (3 / 2) 2 toDouble_scaled_0_015 (by norm_num) (by norm_num)]
    norm_num

/-- Witness for the amended C9 on the single record of amount `-0.125`. -/
theorem computeTotals_rounds_half_up_witness :
    (∀ t ∈ negativeTieTxs, t.type = "income" ∨ t.type = "expense") ∧
    (∀ t ∈ negativeTieTxs, t.amount ≠ .nan) ∧
    (computeTotals negativeTieTxs).income
      = toCents JSNum.round (sumOf (amountsOfType "income" negativeTieTxs)) :=
  ⟨negativeTieTxs_type, negativeTieTxs_amount,
    (computeTotals_rounds_half_up negativeTieTxs negativeTieTxs_type negativeTieTxs_amount).1⟩

/-- On an array of records the load keeps length and order and normalises each record
by itself. -/
theorem normalize_each_record (fmt : ℚ → String) (clock : Nat → String)
    (old : List Transaction) (items : List JSVal)
    (hrec : ∀ v ∈ items, isRecord v = true) :
    (loadTransactions fmt clock ⟨old, .json (.arr items)⟩).transactions.length = items.length ∧
    (∀ j, j < items.length →
      ∃ v t, items[j]? = some v ∧
        (loadTransactions fmt clock ⟨old, .json (.arr items)⟩).transactions[j]? = some t ∧
        normalize fmt (clock j) v = some t ∧
        t.id = fieldOf "id" v ∧
        ((fieldOf "name" v).isFalsy = true → t.name = "") ∧
        (∀ s, fieldOf "name" v = JSVal.str s → t.name = s) ∧
        ((fieldOf "amount" v).toNumber fmt = some .nan → t.amount = .fin 0) ∧
        (∀ q, fieldOf "amount" v = JSVal.num (.fin q) → t.amount = .fin q) ∧
        (fieldOf "type" v = JSVal.str "expense" → t.type = "expense") ∧
        (fieldOf "type" v ≠ JSVal.str "expense" → t.type = "income") ∧
        t.dateISO = (if (fieldOf "dateISO" v).isFalsy then JSVal.str (clock j)
                     else fieldOf "dateISO" v)) ∧
    (∃ t, (loadTransactions fmt clock ⟨old, .json (.arr [malformedRecord])⟩).transactions = [t] ∧
      t.amount = .fin 0 ∧ t.type = "income") := by
  obtain ⟨txs, htxs, hlen, hget⟩ := normalizeAll_records fmt clock items hrec 0
  have hload : (loadTransactions fmt clock ⟨old, .json (.arr items)⟩).transactions = txs := by
    simp [loadTransactions, htxs]
  refine ⟨by rw [hload, hlen], ?_, ?_⟩
  · intro j hj
    obtain ⟨v, t, hv, ht, hn⟩ := hget j hj
    rw [Nat.zero_add] at hn
    have hvmem : v ∈ items := List.getElem?_mem hv
    obtain ⟨t', ht', hid, hname, ⟨n, hnum, hamt⟩, hty, hdate⟩ :=
      normalize_record fmt (clock j) v (hrec v hvmem)
    have htt : t' = t := by
      rw [hn] at ht'
      exact (Option.some.inj ht').symm
    subst htt
    refine ⟨v, t', hv, by rw [hload]; exact ht, hn, hid, ?_, ?_, ?_, ?_, ?_, ?_, hdate⟩
    · intro hf
      have : (fieldOf "name" v).or (JSVal.str "") = JSVal.str "" := by simp [JSVal.or, hf]
      rw [this] at hname
      simpa [JSVal.str, JSVal.toStr, JSPrim.toStr] using hname
    · intro s hs
      rw [hs] at hname
      by_cases he : s = ""
      · subst he
        simpa [JSVal.or, JSVal.str, JSVal.isFalsy, JSPrim.isFalsy, JSVal.toStr, JSPrim.toStr]
          using hname
      · simpa [JSVal.or, JSVal.str, JSVal.isFalsy, JSPrim.isFalsy, JSVal.toStr, JSPrim.toStr, he]
          using hname
    · intro hnan
      rw [hnum] at hnan
      have : n = .nan := Option.some.inj hnan
      simp [hamt, this]
    · intro q hq
      rw [hq] at hnum
      have : n = .fin q := by
        simpa [JSVal.num, JSVal.toNumber, JSPrim.toNumber] using hnum.symm
      rw [hamt, this]
      by_cases h0 : q = 0 <;> simp [h0]
    · intro he
      rw [hty, (strictEqPrim_str _ _).mpr he]
      rfl
    · intro hne
      have : (fieldOf "type" v).strictEqPrim (.str "expense") = false := by
        rw [Bool.eq_false_iff]
        exact fun hc => hne ((strictEqPrim_str _ _).mp hc)
      rw [hty, this]
      rfl
  · exact ⟨_, rfl, rfl, rfl⟩

theorem loadTransactions_reset (fmt : ℚ → String) (clock : Nat → String)
    (old : List Transaction) (items : List JSVal)
    (h : ∃ v ∈ items, v = .prim .null ∨ ∃ fields, v = .obj fields ∧ isRecord v = false) :
    (loadTransactions fmt clock ⟨old, .json (.arr items)⟩).transactions = [] := by
  obtain ⟨v, hv, hcase⟩ := h
  have hthrow : ∀ now, normalize fmt now v = none := by
    intro now
    rcases hcase with rfl | ⟨fields, rfl, hr⟩
    · rfl
    · exact normalize_not_record fmt now fields hr
  rw [loadTransactions_transactions]
  simp only
  rw [normalizeAll_throws fmt clock items v hv hthrow 0]
  rfl

/-- C5, as stated, fails: when one stored record has a name that `String(...)` cannot
convert (an object with an own `toString` property), the callback throws, the `catch`
resets the whole list, and the well-formed record stored next to it is lost too. -/
theorem load_resets_whole_list :
    (loadTransactions fmtInt clockA
        ⟨[], .json (.arr [goodRecord, unconvertibleRecord])⟩).transactions = [] ∧
    (loadTransactions fmtInt clockA
        ⟨[], .json (.arr [goodRecord, unconvertibleRecord])⟩).transactions.length
      ≠ [goodRecord, unconvertibleRecord].length := by
  have h : (loadTransactions fmtInt clockA
      ⟨[], .json (.arr [goodRecord, unconvertibleRecord])⟩).transactions = [] := rfl
  refine ⟨h, ?_⟩
  rw [h]
  decide

/-- C5 (amended): when the stored item parses as an array of records on each of which
`String(name || '')` and `Number(amount)` return (the name and the amount hold no object
with an own `toString` property, at any depth of arrays), `loadTransactions` yields a
list of the same length and order; the record at each index is the normalisation of the
stored record at that index alone: id kept, name missing or falsy gives `''`, amount
that is not a number gives `0`, type other than `'expense'` gives `'income'`, timestamp
missing or falsy gives the current time. When the callback throws on some element (a
`null`, or a record whose name or amount cannot be converted), the `catch` resets the
whole list to `[]`. The stored record `{amount: "abc", type: "bogus"}` loads with amount
`0` and type `'income'`. -/
theorem loadTransactions_normalizes (fmt : ℚ → String) (clock : Nat → String)
    (old : List Transaction) (items : List JSVal) :
    ((∀ v ∈ items, isRecord v = true) →
      (loadTransactions fmt clock ⟨old, .json (.arr items)⟩).transactions.length
        = items.length ∧
      (∀ j, j < items.length →
        ∃ v t, items[j]? = some v ∧
          (loadTransactions fmt clock ⟨old, .json (.arr items)⟩).transactions[j]? = some t ∧
          normalize fmt (clock j) v = some t ∧
          t.id = fieldOf "id" v ∧
          ((fieldOf "name" v).isFalsy = true → t.name = "") ∧
          (∀ s, fieldOf "name" v = JSVal.str s → t.name = s) ∧
          ((fieldOf "amount" v).toNumber fmt = some .nan → t.amount = .fin 0) ∧
          (∀ q, fieldOf "amount" v = JSVal.num (.fin q) → t.amount = .fin q) ∧
          (fieldOf "type" v = JSVal.str "expense" → t.type = "expense") ∧
          (fieldOf "type" v ≠ JSVal.str "expense" → t.type = "income") ∧
          t.dateISO = (if (fieldOf "dateISO" v).isFalsy then JSVal.str (clock j)
                       else fieldOf "dateISO" v))) ∧
    ((∃ v ∈ items, v = .prim .null ∨ ∃ fields, v = .obj fields ∧ isRecord v = false) →
      (loadTransactions fmt clock ⟨old, .json (.arr items)⟩).transactions = []) ∧
    (∃ t, (loadTransactions fmt clock ⟨old, .json (.arr [malformedRecord])⟩).transactions = [t] ∧
      t.amount = .fin 0 ∧ t.type = "income") := by
  refine ⟨fun hrec => ?_, loadTransactions_reset fmt clock old items, ⟨_, rfl, rfl, rfl⟩⟩
  have h := normalize_each_record fmt clock old items hrec
  exact ⟨h.1, h.2.1⟩

/-- Witness for the amended C5 on the stored array of a well-formed record and the
record `{amount: "abc", type: "bogus"}`. -/
theorem loadTransactions_normalizes_witness :
    (∀ v ∈ [goodRecord, malformedRecord], isRecord v = true) ∧
    (loadTransactions fmtInt clockA
        ⟨[], .json (.arr [goodRecord, malformedRecord])⟩).transactions.length = 2 :=
  ⟨by decide,
    ((loadTransactions_normalizes fmtInt clockA [] [goodRecord, malformedRecord]).1
      (by decide)).1⟩

/-- C10, as stated, fails: a stored record without a timestamp is given the time of
each load, so two loads at different times yield different lists. -/
theorem two_loads_differ :
    (loadTransactions fmtInt clockB
        (loadTransactions fmtInt clockA ⟨[], bareRecordBlob⟩)).transactions
      ≠ (loadTransactions fmtInt clockA ⟨[], bareRecordBlob⟩).transactions := by
  have h1 : (loadTransactions fmtInt clockA ⟨[], bareRecordBlob⟩).transactions
      = [⟨JSVal.str "a", "", .fin 0, "income", JSVal.str "2024-01-01T00:00:00.000Z"⟩] := rfl
  have h2 : (loadTransactions fmtInt clockB
        (loadTransactions fmtInt clockA ⟨[], bareRecordBlob⟩)).transactions
      = [⟨JSVal.str "a", "", .fin 0, "income", JSVal.str "2024-01-01T00:00:01.000Z"⟩] := rfl
  rw [h1, h2]
  simp [JSVal.str]

/-- C10 (amended): a second `loadTransactions` with no mutation in between leaves the
stored item as the first call left it, and yields the same list as the first call when
the two calls read the same clock or when no stored record lacks a timestamp. -/
theorem loadTransactions_twice (fmt : ℚ → String) (c₁ c₂ : Nat → String) (s : Store) :
    (loadTransactions fmt c₂ (loadTransactions fmt c₁ s)).blob
      = (loadTransactions fmt c₁ s).blob ∧
    (c₁ = c₂ →
      (loadTransactions fmt c₂ (loadTransactions fmt c₁ s)).transactions
        = (loadTransactions fmt c₁ s).transactions) ∧
    ((∀ items, s.blob = .json (.arr items) →
        ∀ v ∈ items, (fieldOf "dateISO" v).isFalsy = false) →
      (loadTransactions fmt c₂ (loadTransactions fmt c₁ s)).transactions
        = (loadTransactions fmt c₁ s).transactions) := by
  obtain ⟨txs, blob⟩ := s
  refine ⟨?_, ?_, ?_⟩
  · rw [loadTransactions_blob fmt c₂, loadTransactions_blob fmt c₁]
    cases blob <;> rfl
  · intro hc
    subst hc
    rw [loadTransactions_transactions fmt c₁ (loadTransactions fmt c₁ ⟨txs, blob⟩),
      loadTransactions_transactions fmt c₁ ⟨txs, blob⟩, loadTransactions_blob]
    cases blob <;> rfl
  · intro hd
    rw [loadTransactions_transactions fmt c₂ (loadTransactions fmt c₁ ⟨txs, blob⟩),
      loadTransactions_transactions fmt c₁ ⟨txs, blob⟩, loadTransactions_blob]
    cases blob with
    | missing => rfl
    | empty => rfl
    | garbage raw => rfl
    | json v =>
      cases v with
      | prim p => rfl
      | obj fields => rfl
      | arr items =>
        simp only
        rw [normalizeAll_clock_irrelevant fmt c₂ c₁ items (hd items rfl) 0]

/-- Witness for the amended C10 on a stored record that has a timestamp. -/
theorem loadTransactions_twice_witness :
    (loadTransactions fmtInt clockB
        (loadTransactions fmtInt clockA ⟨[], datedRecordBlob⟩)).transactions
      = (loadTransactions fmtInt clockA ⟨[], datedRecordBlob⟩).transactions :=
  (loadTransactions_twice fmtInt clockA clockB ⟨[], datedRecordBlob⟩).2.2 (by
    intro items h v hv
    simp only [datedRecordBlob, Stored.json.injEq, JSVal.arr.injEq] at h
    subst h
    simp only [List.mem_singleton] at hv
    subst hv
    decide)

/-- The id built at the instant `1700000000000` with the draw `0.5`. -/
theorem newId_half : newId 1700000000000 (1 / 2) = "loyw3v283uw" := by
  have h1 : toString36 1700000000000 = "loyw3v28" := by rfl
  have h2 : toString36 5000 = "3uw" := by decide
  have hfl' : ⌊((5000 : ℤ) : ℚ)⌋ = 5000 := Int.floor_intCast 5000
  have hfl : ⌊(5000 : ℚ)⌋ = 5000 := by
    rw [Int.floor_eq_iff]
    norm_num
  have hm : ((JSNum.fin (1 / 2)).mul (.fin 10000)).floor = .fin ((5000 : ℤ) : ℚ) := by
    rw [mul_fin, toDouble_draw_half]
    simp only [JSNum.floor, hfl]
  have hn : numToString36 (.fin ((5000 : ℤ) : ℚ)) = toString36 5000 := by
    simp only [numToString36, hfl']
  unfold newId
  rw [hm, hn, h1, h2]
  rfl

/-- The id built at the same instant with the draw `0.0007` (as a double): the double
product is `7`, although the exact product is below `7`. -/
theorem newId_small_draw :
    newId 1700000000000 (6456360425798343 / 9223372036854775808) = "loyw3v287" := by
  have h1 : toString36 1700000000000 = "loyw3v28" := by rfl
  have h2 : toString36 7 = "7" := by decide
  have hfl' : ⌊((7 : ℤ) : ℚ)⌋ = 7 := Int.floor_intCast 7
  have hfl : ⌊(7 : ℚ)⌋ = 7 := by
    rw [Int.floor_eq_iff]
    norm_num
  have hm : ((JSNum.fin (6456360425798343 / 9223372036854775808)).mul (.fin 10000)).floor
      = .fin ((7 : ℤ) : ℚ) := by
    rw [mul_fin, toDouble_draw_0_0007]
    simp only [JSNum.floor, hfl]
  have hn : numToString36 (.fin ((7 : ℤ) : ℚ)) = toString36 7 := by
    simp only [numToString36, hfl']
  unfold newId
  rw [hm, hn, h1, h2]
  rfl

/-- C8, as stated, fails: two additions that read the same clock value and the same
random draw build the same id, so a reachable list holds two records with one id. -/
theorem duplicate_ids_reachable :
    Reachable fmtInt sameInstantStore ∧ ¬ (idsOf sameInstantStore.transactions).Nodup := by
  constructor
  · exact Reachable.add coffeeStore sameInstantStore 1700000000000 (1 / 2)
      "2023-11-14T22:13:20.000Z" (.str "tea") (.num (.fin 3)) (.str "expense")
      (Reachable.add freshStore coffeeStore 1700000000000 (1 / 2)
        "2023-11-14T22:13:20.000Z" (.str "coffee") (.num (.fin 5)) (.str "expense")
        (Reachable.load .missing clockA rfl (fun _ => by simp [clockA])) (by decide) rfl)
      (by decide) rfl
  · have h : idsOf sameInstantStore.transactions
        = [JSVal.str (newId 1700000000000 (1 / 2)), JSVal.str (newId 1700000000000 (1 / 2))] :=
      rfl
    rw [h]
    simp

/-- C8 (amended): from a list without duplicate ids, an `addTransaction` that returns
yields a list without duplicate ids provided the id it builds from the clock reading and
the random draw is not already in the list; `deleteTransaction` and `clearAll` always
do; `loadTransactions` yields a list without duplicate ids provided the stored records
have pairwise distinct ids. The id built at the instant `1700000000000` is
`loyw3v283uw` for the draw `0.5` and `loyw3v287` for the draw `0.0007`. -/
theorem ids_nodup_preserved (fmt : ℚ → String) (now : Int) (rnd : ℚ) (iso : String)
    (name amount type : JSArg) (id : JSPrim) (confirmed : Bool) (clock : Nat → String)
    (s : Store) (h : (idsOf s.transactions).Nodup) :
    (JSVal.str (newId now rnd) ∉ idsOf s.transactions →
      ∀ s', addTransaction fmt now rnd iso name amount type s = some s' →
        idsOf s'.transactions = JSVal.str (newId now rnd) :: idsOf s.transactions ∧
        (idsOf s'.transactions).Nodup) ∧
    (idsOf (deleteTransaction id s).transactions).Nodup ∧
    (idsOf (clearAll confirmed s).transactions).Nodup ∧
    ((storedIds s.blob).Nodup → (idsOf (loadTransactions fmt clock s).transactions).Nodup) ∧
    newId 1700000000000 (1 / 2) = "loyw3v283uw" ∧
    toDouble (7 / 10000) = .fin (6456360425798343 / 9223372036854775808) ∧
    newId 1700000000000 (6456360425798343 / 9223372036854775808) = "loyw3v287" := by
  refine ⟨?_, ?_, ?_, ?_, newId_half, toDouble_literal_0_0007, newId_small_draw⟩
  · intro hfresh s' hadd
    obtain ⟨tx, htx, rfl⟩ := addTransaction_some fmt now rnd iso name amount type s s' hadd
    obtain ⟨nameStr, n, _, _, rfl⟩ :=
      newTransaction_some fmt now rnd iso name amount type tx htx
    have hids : idsOf (saveTransactions { s with transactions :=
        ({ id := JSVal.str (newId now rnd)
           name := jsTrim nameStr
           amount := n.orZero
           type := if type.isString "expense" then "expense" else "income"
           dateISO := JSVal.str iso } : Transaction) :: s.transactions }).transactions
        = JSVal.str (newId now rnd) :: idsOf s.transactions := rfl
    rw [hids]
    exact ⟨rfl, List.nodup_cons.mpr ⟨hfresh, h⟩⟩
  · unfold deleteTransaction
    cases hf : findIndex id s.transactions with
    | none => exact h
    | some i =>
      exact h.sublist ((List.eraseIdx_sublist s.transactions i).map _)
  · cases confirmed with
    | false => exact h
    | true => simp [clearAll, saveTransactions, idsOf]
  · intro hs
    rw [loadTransactions_transactions]
    obtain ⟨txs, blob⟩ := s
    cases blob with
    | missing => simp [idsOf]
    | empty => simp [idsOf]
    | garbage raw => simp [idsOf]
    | json v =>
      cases v with
      | prim p => simp [idsOf]
      | obj fields => simp [idsOf]
      | arr items =>
        simp only
        cases hn : normalizeAll fmt clock 0 items with
        | none => simp [idsOf]
        | some l =>
          simp only [Option.getD_some, idsOf]
          rw [normalizeAll_ids fmt clock items 0 l hn]
          exact hs

/-- Witness for the amended C8 on a store of three records with the ids `a`, `b`, `c`
and a stored array of two records with the ids `a`, `b`: an addition whose new id
`loyw3v283uw` is none of the three gives four distinct ids, a deletion gives two, and a
load gives the two stored ones. -/
theorem ids_nodup_preserved_witness :
    (idsOf threeRecordStore.transactions).Nodup ∧
    JSVal.str (newId 1700000000000 (1 / 2)) ∉ idsOf threeRecordStore.transactions ∧
    (∃ s', addTransaction fmtInt 1700000000000 (1 / 2) "2023-11-14T22:13:20.000Z"
        (.str "tea") (.num (.fin 3)) (.str "expense") threeRecordStore = some s' ∧
      (idsOf s'.transactions).length = 4 ∧ (idsOf s'.transactions).Nodup) ∧
    (idsOf (deleteTransaction (.str "b") threeRecordStore).transactions).length = 2 ∧
    (idsOf (deleteTransaction (.str "b") threeRecordStore).transactions).Nodup ∧
    (idsOf (loadTransactions fmtInt clockA
      ⟨threeRecordStore.transactions, twoRecordBlob⟩).transactions).length = 2 ∧
    (idsOf (loadTransactions fmtInt clockA
      ⟨threeRecordStore.transactions, twoRecordBlob⟩).transactions).Nodup := by
  have h0 : (idsOf threeRecordStore.transactions).Nodup := by
    have hids : idsOf threeRecordStore.transactions
        = [JSVal.str "a", JSVal.str "b", JSVal.str "c"] := rfl
    rw [hids]
    simp [JSVal.str]
  have h0' : (idsOf (⟨threeRecordStore.transactions, twoRecordBlob⟩ : Store).transactions).Nodup :=
    h0
  have hfresh : JSVal.str (newId 1700000000000 (1 / 2))
      ∉ idsOf threeRecordStore.transactions := by
    have hids : idsOf threeRecordStore.transactions
        = [JSVal.str "a", JSVal.str "b", JSVal.str "c"] := rfl
    rw [hids, newId_half]
    simp [JSVal.str]
  have h := ids_nodup_preserved fmtInt 1700000000000 (1 / 2) "2023-11-14T22:13:20.000Z"
    (.str "tea") (.num (.fin 3)) (.str "expense") (.str "b") true clockA threeRecordStore h0
  have h' := ids_nodup_preserved fmtInt 1700000000000 (1 / 2) "2023-11-14T22:13:20.000Z"
    (.str "tea") (.num (.fin 3)) (.str "expense") (.str "b") true clockA
    ⟨threeRecordStore.transactions, twoRecordBlob⟩ h0'
  have hadd := h.1 hfresh _ rfl
  have hstored : (storedIds twoRecordBlob).Nodup := by
    have hids : storedIds twoRecordBlob = [JSVal.str "a", JSVal.str "b"] := rfl
    rw [hids]
    simp [JSVal.str]
  refine ⟨h0, hfresh, ⟨_, rfl, ?_, hadd.2⟩, rfl, h.2.1, rfl, h'.2.2.2.1 hstored⟩
  rw [hadd.1]
  rfl

/-- C6, as stated, fails: an added amount `Infinity` is kept in memory, written by
`saveTransactions` as `null` and read back as `0`; and an id that the stored text gave as
`1e999` is `Infinity` in memory, written as `null` and read back as `null`, although
every amount is finite. -/
theorem roundtrip_loses_infinity :
    (Reachable fmtInt infiniteAmountStore ∧
      (loadTransactions fmtInt clockA (saveTransactions infiniteAmountStore)).transactions
        ≠ infiniteAmountStore.transactions) ∧
    (Reachable fmtInt (loadTransactions fmtInt clockA ⟨[], infiniteIdBlob⟩) ∧
      (∀ t ∈ (loadTransactions fmtInt clockA ⟨[], infiniteIdBlob⟩).transactions,
        t.amount.isFinite = true) ∧
      (loadTransactions fmtInt clockA
          (saveTransactions (loadTransactions fmtInt clockA ⟨[], infiniteIdBlob⟩))).transactions
        ≠ (loadTransactions fmtInt clockA ⟨[], infiniteIdBlob⟩).transactions) := by
  refine ⟨⟨?_, ?_⟩, ?_, ?_, ?_⟩
  · exact Reachable.add freshStore infiniteAmountStore 1700000000000 (1 / 2)
      "2023-11-14T22:13:20.000Z" (.str "gift") (.num .posInf) (.str "income")
      (Reachable.load .missing clockA rfl (fun _ => by simp [clockA])) (by decide) rfl
  · intro h
    have h1 : (loadTransactions fmtInt clockA
        (saveTransactions infiniteAmountStore)).transactions.map (fun t => t.amount)
        = [.fin 0] := rfl
    have h2 : infiniteAmountStore.transactions.map (fun t => t.amount) = [.posInf] := rfl
    rw [h, h2] at h1
    simp at h1
  · exact Reachable.load infiniteIdBlob clockA rfl (fun _ => by simp [clockA])
  · intro t ht
    have hl : (loadTransactions fmtInt clockA ⟨[], infiniteIdBlob⟩).transactions
        = [⟨JSVal.num .posInf, "rent", (JSNum.fin 700).orZero, "expense",
            JSVal.str "2023-05-05T10:00:00.000Z"⟩] := rfl
    rw [hl, List.mem_singleton] at ht
    subst ht
    simp [orZero_fin, JSNum.isFinite]
  · intro h
    have h1 : (loadTransactions fmtInt clockA
        (saveTransactions (loadTransactions fmtInt clockA
          ⟨[], infiniteIdBlob⟩))).transactions.map (fun t => t.id) = [.prim .null] := rfl
    have h2 : (loadTransactions fmtInt clockA ⟨[], infiniteIdBlob⟩).transactions.map
        (fun t => t.id) = [JSVal.num .posInf] := rfl
    rw [h, h2] at h1
    simp [JSVal.num] at h1

/-- C6 (amended): in every state reachable from an initial load by `addTransaction`,
`deleteTransaction` and `clearAll` in which no number of a record is infinite (not the
amount, and none inside the id or the timestamp), `saveTransactions` followed by
`loadTransactions`, in the same page or in a new one, reproduces the same list: the same
records in the same order with the same id, name, amount, type and timestamp. -/
theorem save_load_roundtrip (fmt : ℚ → String) (s : Store) (hr : Reachable fmt s)
    (hfin : ∀ t ∈ s.transactions, finiteRecord t = true) (old : List Transaction)
    (clock : Nat → String) :
    (loadTransactions fmt clock (saveTransactions s)).transactions = s.transactions ∧
    (loadTransactions fmt clock ⟨old, (saveTransactions s).blob⟩).transactions
      = s.transactions := by
  have hs : ∀ t ∈ s.transactions, Storable t := fun t ht =>
    storable_of_wellFormed t (reachable_wellFormed fmt s hr t ht) (hfin t ht)
  exact ⟨load_encode fmt clock s.transactions s.transactions hs,
    load_encode fmt clock old s.transactions hs⟩

/-- Witness for the amended C6 on the store holding one added record of amount `12.5`,
read back into a page that held three other records. -/
theorem save_load_roundtrip_witness :
    Reachable fmtInt oneAdditionStore ∧
    (∀ t ∈ oneAdditionStore.transactions, finiteRecord t = true) ∧
    (loadTransactions fmtInt clockB
        ⟨threeRecordStore.transactions, (saveTransactions oneAdditionStore).blob⟩).transactions
      = oneAdditionStore.transactions :=
  have hr : Reachable fmtInt oneAdditionStore :=
    Reachable.add freshStore oneAdditionStore 1700000000000 (1 / 2)
      "2023-11-14T22:13:20.000Z" (.str "lunch") (.num (.fin (25 / 2))) (.str "expense")
      (Reachable.load .missing clockA rfl (fun _ => by simp [clockA])) (by decide) rfl
  have hfin : ∀ t ∈ oneAdditionStore.transactions, finiteRecord t = true := by
    intro t ht
    have hl : oneAdditionStore.transactions
        = [⟨JSVal.str (newId 1700000000000 (1 / 2)), jsTrim "lunch",
            (JSNum.fin (25 / 2)).orZero, "expense",
            JSVal.str "2023-11-14T22:13:20.000Z"⟩] := rfl
    rw [hl, List.mem_singleton] at ht
    subst ht
    simp [finiteRecord, orZero_fin, JSNum.isFinite, finiteNumbers, JSVal.str]
  ⟨hr, hfin,
    (save_load_roundtrip fmtInt oneAdditionStore hr hfin threeRecordStore.transactions
      clockB).2⟩

/-- C7, as stated, fails: `loadTransactions` normalises the stored records in memory and
writes nothing back, so after it the stored item is not the serialisation of the list
in memory, and reading it again at another time gives a different list. -/
theorem load_leaves_blob_unnormalized :
    ¬ Persisted (loadTransactions fmtInt clockA ⟨[], unnormalizedBlob⟩) ∧
    (loadTransactions fmtInt clockB
        (loadTransactions fmtInt clockA ⟨[], unnormalizedBlob⟩)).transactions
      ≠ (loadTransactions fmtInt clockA ⟨[], unnormalizedBlob⟩).transactions := by
  have h1 : (loadTransactions fmtInt clockA ⟨[], unnormalizedBlob⟩).transactions
      = [⟨JSVal.str "a", "", .fin 0, "income", JSVal.str "2024-01-01T00:00:00.000Z"⟩] := rfl
  have h2 : (loadTransactions fmtInt clockB
        (loadTransactions fmtInt clockA ⟨[], unnormalizedBlob⟩)).transactions
      = [⟨JSVal.str "a", "", .fin 0, "income", JSVal.str "2024-01-01T00:00:01.000Z"⟩] := rfl
  have h3 : (loadTransactions fmtInt clockA ⟨[], unnormalizedBlob⟩).blob = unnormalizedBlob :=
    rfl
  constructor
  · unfold Persisted
    rw [h3, h1]
    simp [unnormalizedBlob, encode, encodeTx, jsonField, JSVal.str, reparse]
  · rw [h1, h2]
    simp [JSVal.str]

/-- C7 (amended): after an `addTransaction` that returns, after a `deleteTransaction`
that finds its id, after a confirmed `clearAll` and after a `loadTransactions` that
finds nothing stored, the stored item is exactly the serialisation of the list in
memory; a `deleteTransaction` that finds nothing and a declined `clearAll` keep that
property when it held before. A `loadTransactions` of an existing item writes nothing:
when that item is the serialisation of records without an infinite number (what the page
itself wrote from such records), the list read is exactly the list serialised and the
property holds after the load; otherwise it holds exactly when the stored item already
is the serialisation of the normalised list. -/
theorem persisted_after_write (fmt : ℚ → String) (now : Int) (rnd : ℚ) (iso : String)
    (name amount type : JSArg) (id : JSPrim) (clock : Nat → String) (s : Store) :
    (∀ s', addTransaction fmt now rnd iso name amount type s = some s' → Persisted s') ∧
    ((∃ t ∈ s.transactions, t.id.strictEqPrim id = true) →
      Persisted (deleteTransaction id s)) ∧
    Persisted (clearAll true s) ∧
    ((s.blob = .missing ∨ s.blob = .empty) → Persisted (loadTransactions fmt clock s)) ∧
    (Persisted s → Persisted (deleteTransaction id s) ∧ Persisted (clearAll false s)) ∧
    (∀ txs, s.blob = .json (encode txs) → (∀ t ∈ txs, Storable t) →
      (loadTransactions fmt clock s).transactions = txs ∧
      Persisted (loadTransactions fmt clock s)) ∧
    ((s.blob ≠ .missing ∧ s.blob ≠ .empty) →
      (loadTransactions fmt clock s).blob = s.blob ∧
      (Persisted (loadTransactions fmt clock s) ↔
        s.blob = .json (encode (loadTransactions fmt clock s).transactions))) := by
  refine ⟨?_, ?_, rfl, ?_, ?_, ?_, ?_⟩
  · intro s' hadd
    obtain ⟨tx, _, rfl⟩ := addTransaction_some fmt now rnd iso name amount type s s' hadd
    rfl
  · intro hex
    cases hf : findIndex id s.transactions with
    | none =>
      obtain ⟨t, ht, hid⟩ := hex
      have := (findIndex_eq_none id s.transactions).mp hf t ht
      simp [hid] at this
    | some i => simp [deleteTransaction, hf, Persisted, saveTransactions]
  · obtain ⟨txs, blob⟩ := s
    rintro (h | h)
    · simp only at h
      subst h
      rfl
    · simp only at h
      subst h
      rfl
  · intro hp
    constructor
    · cases hf : findIndex id s.transactions with
      | none => simpa [deleteTransaction, hf] using hp
      | some i => simp [deleteTransaction, hf, Persisted, saveTransactions]
    · simpa [clearAll] using hp
  · intro txs hb hst
    obtain ⟨old, blob⟩ := s
    simp only at hb
    subst hb
    have hl := load_encode fmt clock old txs hst
    refine ⟨hl, ?_⟩
    unfold Persisted
    rw [hl, loadTransactions_blob]
  · rintro ⟨h1, h2⟩
    have hb : (loadTransactions fmt clock s).blob = s.blob := by
      rw [loadTransactions_blob]
      obtain ⟨old, blob⟩ := s
      cases blob with
      | missing => exact absurd rfl h1
      | empty => exact absurd rfl h2
      | garbage raw => rfl
      | json v => rfl
    refine ⟨hb, ?_⟩
    unfold Persisted
    rw [hb]

/-- Witness for the amended C7: deleting a present id from three records, the first load
of an absent item, and the load of an item the page wrote from three records, all leave
the stored item equal to the serialisation of the list in memory. -/
theorem persisted_after_write_witness :
    Persisted (deleteTransaction (.str "b") threeRecordStore) ∧
    Persisted (loadTransactions fmtInt clockA threeRecordStore) ∧
    (loadTransactions fmtInt clockB
        ⟨[], .json (encode threeRecordStore.transactions)⟩).transactions
      = threeRecordStore.transactions ∧
    Persisted (loadTransactions fmtInt clockB
        ⟨[], .json (encode threeRecordStore.transactions)⟩) :=
  have h := persisted_after_write fmtInt 0 0 "2024-01-01T00:00:00.000Z" (.str "x")
    (.num (.fin 1)) (.str "income") (.str "b") clockA threeRecordStore
  have h' := persisted_after_write fmtInt 0 0 "2024-01-01T00:00:00.000Z" (.str "x")
    (.num (.fin 1)) (.str "income") (.str "b") clockB
    ⟨[], .json (encode threeRecordStore.transactions)⟩
  have hst : ∀ t ∈ threeRecordStore.transactions, Storable t := by
    intro t ht
    simp only [threeRecordStore, List.mem_cons, List.mem_singleton, List.not_mem_nil,
      or_false] at ht
    rcases ht with rfl | rfl | rfl <;>
      exact ⟨Or.inr rfl, by simp [sampleTx], rfl, rfl, rfl⟩
  have hload := h'.2.2.2.2.2.1 threeRecordStore.transactions rfl hst
  ⟨h.2.1 ⟨sampleTx "b" 7 "expense", by simp [threeRecordStore], by decide⟩,
    h.2.2.2.1 (Or.inl rfl), hload.1, hload.2⟩

end CostCalculator
